import Mathlib

/-!
Verification of the filerix library (src/filerix/core.py, src/filerix/utils.py).

Shallow embedding conventions:
* Python strings are `List Char`; Python bytes are `List Nat` (each byte < 256).
* Resolved filesystem paths are lists of segments (`List String`); the model works
  on already-resolved paths, so `Path(p).expanduser().resolve()` is the identity.
* The filesystem is a partial map from paths to entries; the root path `[]` always
  exists as a readable, writable directory.
* Python exceptions become an error type `Err`; fallible functions return `Except`.
* Functions with filesystem side effects return the new filesystem state alongside
  the result, since errors can leave directories behind (create_file).
-/

namespace Filerix

instance {ε α : Type} [DecidableEq ε] [DecidableEq α] : DecidableEq (Except ε α)
  | .error e, .error f =>
    if h : e = f then isTrue (by rw [h]) else isFalse (fun hc => h (Except.error.inj hc))
  | .error _, .ok _ => isFalse (fun hc => Except.noConfusion hc)
  | .ok _, .error _ => isFalse (fun hc => Except.noConfusion hc)
  | .ok a, .ok b =>
    if h : a = b then isTrue (by rw [h]) else isFalse (fun hc => h (Except.ok.inj hc))

/-! ### Character predicates and whitespace helpers (utils.py regexes) -/

/-- Characters kept by the control-character strip:
the regex r'[^\x20-\x7E\t\n]' in utils.py line 40 deletes everything outside
printable ASCII except tab and newline. -/
def keepChar (c : Char) : Bool :=
  (0x20 ≤ c.toNat && c.toNat ≤ 0x7E) || c = '\t' || c = '\n'

/-- First pass of line-ending normalization: replace('\r\n', '\n'). -/
def replCrlf : List Char → List Char
  | '\r' :: '\n' :: rest => '\n' :: replCrlf rest
  | c :: rest => c :: replCrlf rest
  | [] => []

/-- Second pass of line-ending normalization: replace('\r', '\n'). -/
def replCr (s : List Char) : List Char :=
  s.map (fun c => if c = '\r' then '\n' else c)

/-- re.sub(r'\n{2,}', '\n', s): every maximal run of newlines becomes one newline.
The boolean argument records whether the previous character was a newline. -/
def collapseNlAux : Bool → List Char → List Char
  | _, [] => []
  | prevNl, c :: rest =>
    if c = '\n' then (if prevNl then [] else ['\n']) ++ collapseNlAux true rest
    else c :: collapseNlAux false rest

def collapseNl (s : List Char) : List Char := collapseNlAux false s

def isSpTab (c : Char) : Bool := c = ' ' || c = '\t'

/-- re.sub(r'[ \t]+', ' ', s): every maximal run of spaces/tabs becomes one space.
The boolean argument records whether the previous character was a space/tab. -/
def collapseSpAux : Bool → List Char → List Char
  | _, [] => []
  | prevSp, c :: rest =>
    if isSpTab c then (if prevSp then [] else [' ']) ++ collapseSpAux true rest
    else c :: collapseSpAux false rest

def collapseSp (s : List Char) : List Char := collapseSpAux false s

/-- Python str.strip() whitespace set (ASCII part, which is all that can occur
after the control-character strip). -/
def isPySpace (c : Char) : Bool :=
  c = ' ' || c = '\t' || c = '\n' || c = '\r' || c = '\x0b' || c = '\x0c'

/-- Python str.strip(): drop whitespace from both ends. -/
def pyStrip (s : List Char) : List Char :=
  ((s.dropWhile isPySpace).reverse.dropWhile isPySpace).reverse

/-! ### UTF-8 decoding (bytes.decode('utf-8'), strict errors) -/

def isCont (b : Nat) : Bool := 0x80 ≤ b && b ≤ 0xBF

/-- Decode a single UTF-8 scalar from the head of the byte list, strictly:
overlong encodings, surrogates and out-of-range scalars are rejected, as in
Python's bytes.decode('utf-8'). -/
def utf8Step : List Nat → Option (Char × List Nat)
  | [] => none
  | b :: bs =>
    if b ≤ 0x7F then some (Char.ofNat b, bs)
    else if 0xC2 ≤ b && b ≤ 0xDF then
      match bs with
      | b1 :: bs' =>
        if isCont b1 then some (Char.ofNat ((b - 0xC0) * 64 + (b1 - 0x80)), bs')
        else none
      | _ => none
    else if 0xE0 ≤ b && b ≤ 0xEF then
      match bs with
      | b1 :: b2 :: bs' =>
        let lo1 : Nat := if b = 0xE0 then 0xA0 else 0x80
        let hi1 : Nat := if b = 0xED then 0x9F else 0xBF
        if (lo1 ≤ b1 && b1 ≤ hi1) && isCont b2 then
          some (Char.ofNat (((b - 0xE0) * 64 + (b1 - 0x80)) * 64 + (b2 - 0x80)), bs')
        else none
      | _ => none
    else if 0xF0 ≤ b && b ≤ 0xF4 then
      match bs with
      | b1 :: b2 :: b3 :: bs' =>
        let lo1 : Nat := if b = 0xF0 then 0x90 else 0x80
        let hi1 : Nat := if b = 0xF4 then 0x8F else 0xBF
        if ((lo1 ≤ b1 && b1 ≤ hi1) && isCont b2) && isCont b3 then
          some (Char.ofNat ((((b - 0xF0) * 64 + (b1 - 0x80)) * 64 + (b2 - 0x80)) * 64
            + (b3 - 0x80)), bs')
        else none
      | _ => none
    else none

/-- Iterate utf8Step; the fuel only bounds the number of scalars, so any fuel
at or above the byte count gives the full decode. -/
def utf8DecodeAux : Nat → List Nat → Option (List Char)
  | _, [] => some []
  | 0, _ :: _ => none
  | f + 1, b :: bs =>
    match utf8Step (b :: bs) with
    | some (c, rest) => (utf8DecodeAux f rest).map (c :: ·)
    | none => none

/-- Strict UTF-8 decoding of a whole byte string (bytes.decode('utf-8')). -/
def utf8Decode (bs : List Nat) : Option (List Char) := utf8DecodeAux bs.length bs

/-! ### Decimal representation of integers (Python str(int)) -/

def digitChar (n : Nat) : Char := Char.ofNat (48 + n)

/-- Fuel-indexed digit emitter; any fuel above the number itself suffices. -/
def natCharsF : Nat → Nat → List Char
  | 0, _ => []
  | f + 1, n =>
    if n < 10 then [digitChar n]
    else natCharsF f (n / 10) ++ [digitChar (n % 10)]

/-- Decimal digits of a natural number, most significant first. -/
def natChars (n : Nat) : List Char := natCharsF (n + 1) n

/-- Python str() of an int: optional minus sign followed by decimal digits. -/
def intChars (n : Int) : List Char :=
  if n < 0 then '-' :: natChars n.natAbs else natChars n.toNat

/-! ### JSON values

`json.dumps` is called by `_sanitize_content` on dict/list inputs with
`ensure_ascii=False` and `indent=None` (compact) or `indent=2`.  The model
covers JSON-serializable structures with string keys: null, booleans,
integers, strings, arrays and objects (floats and non-string keys are outside
the model).  Objects are insertion-ordered lists of key/value pairs, matching
Python dict iteration order. -/

mutual
inductive JValue : Type where
  | jnull : JValue
  | jbool (b : Bool) : JValue
  | jint (n : Int) : JValue
  | jstr (s : List Char) : JValue
  | jarr (xs : JArr) : JValue
  | jobj (kvs : JObj) : JValue
  deriving DecidableEq
inductive JArr : Type where
  | anil : JArr
  | acons (hd : JValue) (tl : JArr) : JArr
  deriving DecidableEq
inductive JObj : Type where
  | onil : JObj
  | ocons (k : List Char) (v : JValue) (tl : JObj) : JObj
  deriving DecidableEq
end

/-- String escaping of json.dumps with ensure_ascii=False: only the two JSON
metacharacters and control characters are escaped; everything else (including
non-ASCII) is emitted literally. -/
def escChar (c : Char) : List Char :=
  if c = '"' then ['\\', '"']
  else if c = '\\' then ['\\', '\\']
  else if c = '\n' then ['\\', 'n']
  else if c = '\r' then ['\\', 'r']
  else if c = '\t' then ['\\', 't']
  else if c = '\x08' then ['\\', 'b']
  else if c = '\x0c' then ['\\', 'f']
  else if c.toNat < 0x20 then
    ['\\', 'u', '0', '0', hexDigitChar (c.toNat / 16), hexDigitChar (c.toNat % 16)]
  else [c]
where
  hexDigitChar (n : Nat) : Char :=
    if n < 10 then Char.ofNat (48 + n) else Char.ofNat (97 + (n - 10))

def escStr (s : List Char) : List Char := (s.map escChar).flatten

mutual
/-- json.dumps with indent=None: default separators are (', ', ': '). -/
def dumpV : JValue → List Char
  | .jnull => ['n', 'u', 'l', 'l']
  | .jbool true => ['t', 'r', 'u', 'e']
  | .jbool false => ['f', 'a', 'l', 's', 'e']
  | .jint n => intChars n
  | .jstr s => '"' :: escStr s ++ ['"']
  | .jarr .anil => ['[', ']']
  | .jarr (.acons x xs) => '[' :: (dumpV x ++ dumpArr xs) ++ [']']
  | .jobj .onil => ['{', '}']
  | .jobj (.ocons k v kvs) =>
    '{' :: (('"' :: escStr k ++ '"' :: ':' :: ' ' :: dumpV v) ++ dumpObj kvs) ++ ['}']
termination_by structural v => v
def dumpArr : JArr → List Char
  | .anil => []
  | .acons x xs => ',' :: ' ' :: (dumpV x ++ dumpArr xs)
termination_by structural a => a
def dumpObj : JObj → List Char
  | .onil => []
  | .ocons k v kvs =>
    ',' :: ' ' :: (('"' :: escStr k ++ '"' :: ':' :: ' ' :: dumpV v) ++ dumpObj kvs)
termination_by structural o => o
end

/-- One `"key": value` member, as emitted inside objects by the dump above. -/
def dumpMember (k : List Char) (v : JValue) : List Char :=
  '"' :: escStr k ++ '"' :: ':' :: ' ' :: dumpV v

def nlIndent (n : Nat) : List Char := '\n' :: List.replicate n ' '

mutual
/-- json.dumps with indent=2: newline-plus-indent item separator, ': ' key
separator; empty containers print without newlines.  `ind` is the current
indentation of the surrounding context. -/
def dumpVI (ind : Nat) : JValue → List Char
  | .jnull => ['n', 'u', 'l', 'l']
  | .jbool true => ['t', 'r', 'u', 'e']
  | .jbool false => ['f', 'a', 'l', 's', 'e']
  | .jint n => intChars n
  | .jstr s => '"' :: escStr s ++ ['"']
  | .jarr .anil => ['[', ']']
  | .jarr (.acons x xs) =>
    '[' :: (nlIndent (ind + 2) ++ dumpVI (ind + 2) x ++ dumpArrI (ind + 2) xs)
      ++ nlIndent ind ++ [']']
  | .jobj .onil => ['{', '}']
  | .jobj (.ocons k v kvs) =>
    '{' :: (nlIndent (ind + 2) ++
        ('"' :: escStr k ++ '"' :: ':' :: ' ' :: dumpVI (ind + 2) v) ++
        dumpObjI (ind + 2) kvs)
      ++ nlIndent ind ++ ['}']
termination_by structural v => v
def dumpArrI (ind : Nat) : JArr → List Char
  | .anil => []
  | .acons x xs => ',' :: (nlIndent ind ++ dumpVI ind x ++ dumpArrI ind xs)
termination_by structural a => a
def dumpObjI (ind : Nat) : JObj → List Char
  | .onil => []
  | .ocons k v kvs =>
    ',' :: (nlIndent ind ++
      ('"' :: escStr k ++ '"' :: ':' :: ' ' :: dumpVI ind v) ++ dumpObjI ind kvs)
termination_by structural o => o
end

/-- One `"key": value` member at indentation `ind`, as emitted by the indented dump. -/
def dumpMemberI (ind : Nat) (k : List Char) (v : JValue) : List Char :=
  '"' :: escStr k ++ '"' :: ':' :: ' ' :: dumpVI ind v

/-! ### Content values and _sanitize_content (utils.py lines 7-53) -/

/-- The content values accepted by create_file / _sanitize_content:
str, bytes, dict, list, int, bool, None, and an opaque unsupported object
(the `else` branch of the isinstance chain).  Floats are outside the model. -/
inductive Content : Type where
  | pstr (s : List Char)
  | pbytes (b : List Nat)
  | pdict (kvs : JObj)
  | plist (xs : JArr)
  | pint (n : Int)
  | pbool (b : Bool)
  | pnone
  | pobj
  deriving DecidableEq

/-- Reasons carried by PathValidationError, one per raise site in the modelled
code (the Portuguese message texts are abstracted to tags). -/
inductive Reason : Type where
  | notExists          -- _validate_path: 'O caminho não existe'
  | expectedFile       -- _validate_path: 'Esperado arquivo, mas não é.'
  | expectedDir        -- _validate_path: 'Esperado diretório, mas não é.'
  | hiddenRejected     -- _validate_path: 'O caminho é oculto e não é permitido.'
  | notReadable        -- _validate_path: 'O caminho não é legível.'
  | notWritable        -- _validate_path: 'O caminho não é gravável.'
  | alreadyExists      -- create_file: 'O arquivo já existe e sobrescrita não é permitida.'
  | existsNotDir       -- _ensure_directory: 'O caminho existe, mas não é um diretório'
  | dirAlreadyExists   -- _ensure_directory: 'O diretório já existe'
  | dirNoCreate        -- _ensure_directory: 'O diretório não existe e não é permitido criar'
  | dirCreateFailed    -- _ensure_directory: OSError wrap 'Erro ao criar o diretório'
  | dirCreatePermission -- _ensure_directory: PermissionError wrap 'Permissão negada para criar o diretório'
  | permissionDenied   -- core.py PermissionError wraps
  | isDirectory        -- core.py IsADirectoryError wraps
  | unknownError       -- core.py generic Exception wraps
  deriving DecidableEq

abbrev Path := List String

/-- The Python exceptions that escape the modelled functions. -/
inductive Err : Type where
  | pve (p : Path) (r : Reason)  -- PathValidationError(path, reason)
  | typeError                    -- TypeError
  | valueError                   -- ValueError ('O conteúdo final está vazio após a sanitização')
  | fileNotFound                 -- FileNotFoundError
  | unicodeDecodeError           -- UnicodeDecodeError (never actually produced, see read_file)
  deriving DecidableEq

/-- Conversion step of _sanitize_content: the isinstance chain of
utils.py lines 24-37, producing the raw string before post-processing. -/
def contentToStr (c : Content) (compact : Bool) : Except Err (List Char) :=
  match c with
  | .pdict kvs => .ok (if compact then dumpV (.jobj kvs) else dumpVI 0 (.jobj kvs))
  | .plist xs => .ok (if compact then dumpV (.jarr xs) else dumpVI 0 (.jarr xs))
  | .pstr s => .ok s
  | .pint n => .ok (intChars n)
  | .pbool b => .ok (if b then ['T', 'r', 'u', 'e'] else ['F', 'a', 'l', 's', 'e'])
  | .pnone => .ok ['N', 'o', 'n', 'e']
  | .pbytes b =>
    match utf8Decode b with
    | some s => .ok s
    | none => .error .typeError   -- 'Bytes devem estar codificados em UTF-8'
  | .pobj => .error .typeError    -- 'Tipo de conteúdo não suportado'

/-- _sanitize_content (utils.py lines 7-53): convert, strip control characters,
normalize line endings, optionally compact, and reject empty results. -/
def sanitizeContent (c : Content) (compact : Bool) : Except Err (List Char) :=
  match contentToStr c compact with
  | .error e => .error e
  | .ok s0 =>
    let s1 := s0.filter keepChar
    let s2 := replCr (replCrlf s1)
    let s3 := if compact then pyStrip (collapseSp (collapseNl s2)) else s2
    if (pyStrip s3).isEmpty then .error .valueError else .ok s3

/-! ### Filesystem model -/

/-- A filesystem entry: a regular file with byte content, or a directory.
`r`/`w` model the read/write permission bits consulted by os.access. -/
inductive Entry : Type where
  | file (bs : List Nat) (r : Bool) (w : Bool)
  | dir (r : Bool) (w : Bool)
  deriving DecidableEq

/-- A filesystem state: a partial map from resolved paths to entries. -/
abbrev FS := Path → Option Entry

/-- Entry lookup; the root path [] always exists as a readable writable
directory. -/
def entryAt (fs : FS) (p : Path) : Option Entry :=
  if p = [] then some (.dir true true) else fs p

def isFileAt (fs : FS) (p : Path) : Bool :=
  match entryAt fs p with | some (.file ..) => true | _ => false

def isDirAt (fs : FS) (p : Path) : Bool :=
  match entryAt fs p with | some (.dir ..) => true | _ => false

/-- os.access(path, os.R_OK): false for missing paths. -/
def canRead (fs : FS) (p : Path) : Bool :=
  match entryAt fs p with
  | some (.file _ r _) => r
  | some (.dir r _) => r
  | none => false

/-- os.access(path, os.W_OK): false for missing paths. -/
def canWrite (fs : FS) (p : Path) : Bool :=
  match entryAt fs p with
  | some (.file _ _ w) => w
  | some (.dir _ w) => w
  | none => false

/-- Path.name: the final path segment (empty for the root). -/
def segName (p : Path) : String := p.getLast?.getD ""

/-- Path.parent: drop the final segment. -/
def parentOf (p : Path) : Path := p.dropLast

/-- The nonempty initial segments of a path, shortest first, including the
path itself: the chain of directories Path.mkdir(parents=True) walks. -/
def initSegs (p : Path) : List Path :=
  (List.range p.length).map (fun i => p.take (i + 1))

/-! ### _validate_path (utils.py lines 171-216)

The model receives an already-resolved path, so the isinstance check and
expanduser/resolve steps of lines 191-194 have no counterpart.  The checks run
in source order: existence, expected kind, hidden, readable, writable. -/

def validatePath (fs : FS) (p : Path) (must_exist : Bool) (isFileOpt : Option Bool)
    (readable : Bool) (writable : Bool) (allow_hidden : Bool) : Except Err Path :=
  if must_exist && (entryAt fs p).isNone then .error (.pve p .notExists)
  else if (match isFileOpt with | some true => !(isFileAt fs p) | _ => false) then
    .error (.pve p .expectedFile)
  else if (match isFileOpt with | some false => !(isDirAt fs p) | _ => false) then
    .error (.pve p .expectedDir)
  else if !allow_hidden && (segName p).startsWith "." then .error (.pve p .hiddenRejected)
  else if readable && !(canRead fs p) then .error (.pve p .notReadable)
  else if writable && !(canWrite fs p) then .error (.pve p .notWritable)
  else .ok p

/-! ### _ensure_directory (utils.py lines 218-257) -/

/-- The effect of a successful Path.mkdir(parents=True, exist_ok=True): the
directory and all of its missing ancestors come into existence.  Its two
failure modes — a regular file on the chain (NotADirectoryError, an OSError)
and a non-writable deepest existing ancestor (PermissionError) — are checked
in ensureDirectory before this is applied. -/
def mkdirAll (fs : FS) (d : Path) : FS :=
  fun q => if q ∈ initSegs d ∧ fs q = none then some (.dir true true) else fs q

/-- Whether Path.mkdir(parents=True) is stopped by PermissionError: creating
the first missing component needs write permission on its parent, the deepest
existing ancestor directory (components mkdir creates itself are writable, so
the deeper ones then succeed).  Blocked iff some missing initial segment has
an existing but non-writable parent. -/
def mkdirBlocked (fs : FS) (d : Path) : Bool :=
  (initSegs d).any (fun q =>
    (entryAt fs q).isNone && ((entryAt fs (parentOf q)).isSome &&
      !(canWrite fs (parentOf q))))

/-- _ensure_directory: validate or create a directory.  Returns the resulting
filesystem alongside the outcome (unchanged on every error path: when an
ancestor is a file or a permission is missing, mkdir fails before creating
anything). -/
def ensureDirectory (fs : FS) (d : Path) (create_if_missing : Bool) (exist_ok : Bool) :
    Except Err Path × FS :=
  match entryAt fs d with
  | some (.dir ..) =>
    if exist_ok then (.ok d, fs) else (.error (.pve d .dirAlreadyExists), fs)
  | some (.file ..) => (.error (.pve d .existsNotDir), fs)
  | none =>
    if !create_if_missing then (.error (.pve d .dirNoCreate), fs)
    else if (initSegs d).any (fun q => isFileAt fs q) then
      (.error (.pve d .dirCreateFailed), fs)   -- OSError from mkdir, wrapped
    else if mkdirBlocked fs d then
      (.error (.pve d .dirCreatePermission), fs)  -- PermissionError from mkdir, wrapped
    else (.ok d, mkdirAll fs d)

/-! ### File operations (core.py) -/

/-- Outcomes of Path.write_text before create_file's exception mapping. -/
inductive WriteErr : Type where
  | wIsDir   -- IsADirectoryError: the target is a directory
  | wPerm    -- PermissionError: target or parent not writable
  | wOther   -- any other OSError (e.g. missing parent)
  deriving DecidableEq

/-- Path.write_text: replace the content of an existing writable file, or
create a fresh file under an existing writable parent directory. -/
def writeText (fs : FS) (p : Path) (bs : List Nat) : Except WriteErr FS :=
  match entryAt fs p with
  | some (.dir ..) => .error .wIsDir
  | some (.file _ r w) =>
    if w then .ok (fun q => if q = p then some (.file bs r w) else fs q)
    else .error .wPerm
  | none =>
    match entryAt fs (parentOf p) with
    | some (.dir _ w) =>
      if w then .ok (fun q => if q = p then some (.file bs true true) else fs q)
      else .error .wPerm
    | _ => .error .wOther

/-- create_file (core.py lines 10-57).  `enc` models the text encoding used by
write_text (UTF-8 by default: for the ASCII-only sanitized output this is just
the character codes).  The returned filesystem reflects side effects that
survive an error: parent directories created before sanitization failed. -/
def createFile (enc : List Char → List Nat) (fs : FS) (p : Path) (content : Content)
    (overwrite : Bool) (compact : Bool) : Except Err Path × FS :=
  if (entryAt fs p).isSome && !overwrite then (.error (.pve p .alreadyExists), fs)
  else
    match ensureDirectory fs (parentOf p) true true with
    | (.error e, fs') => (.error e, fs')          -- except PathValidationError: raise
    | (.ok _, fs') =>
      match sanitizeContent content compact with
      | .error e => (.error e, fs')               -- except (TypeError, ValueError): raise
      | .ok txt =>
        match writeText fs' p (enc txt) with
        | .ok fs'' => (.ok p, fs'')
        | .error .wIsDir => (.error (.pve p .isDirectory), fs')
        | .error .wPerm => (.error (.pve p .permissionDenied), fs')
        | .error .wOther => (.error (.pve p .unknownError), fs')

/-- The two result shapes of read_file. -/
inductive ReadOut : Type where
  | rbytes (bs : List Nat)
  | rtext (s : List Char)
  deriving DecidableEq

/-- read_file (core.py lines 59-92).  `decode` models str decoding with the
given encoding (read_text).  When decoding fails, the handler executes
`raise UnicodeDecodeError('Falha ao decodificar...')`: constructing
UnicodeDecodeError with one argument itself raises
`TypeError: function takes exactly 5 arguments (1 given)`, which propagates
(an exception raised inside an except block is not caught by the sibling
handlers of the same try), so the modelled outcome is a TypeError. -/
def readFile (decode : List Nat → Option (List Char)) (fs : FS) (p : Path)
    (as_bytes : Bool) : Except Err ReadOut :=
  match validatePath fs p true (some true) true false true with
  | .error e => .error e
  | .ok fp =>
    match entryAt fs fp with
    | some (.file bs _ _) =>
      if as_bytes then .ok (.rbytes bs)
      else
        match decode bs with
        | some t => .ok (.rtext t)
        | none => .error .typeError
    | _ => .error (.pve p .unknownError)  -- unreachable after validation

/-- delete_file (core.py lines 94-127).  _validate_path signals a missing path
with PathValidationError, which the `except PathValidationError: raise` clause
re-raises; the `except FileNotFoundError` branch that would consult
ignore_missing is unreachable, so ignore_missing is dead. -/
def deleteFile (fs : FS) (p : Path) (ignore_missing : Bool) : Except Err Bool × FS :=
  match validatePath fs p true (some true) false false true with
  | .error e => (.error e, fs)
  | .ok fp => (.ok true, fun q => if q = fp then none else fs q)

/-! ### JSON parsing

Modelled from the spec: the testable property 'parsing the result as JSON'
refers to Python's json.loads, which is standard-library code not part of this
repository.  The parser below follows the JSON grammar as the spec describes
the on-disk format (objects as insertion-ordered key/value sequences, 2-space
or compact separators, literal non-ASCII); numbers are integers, matching the
modelled value space. -/

def isJsonWs (c : Char) : Bool := c = ' ' || c = '\t' || c = '\n' || c = '\r'

def skipWs (s : List Char) : List Char := s.dropWhile isJsonWs

def isDigitC (c : Char) : Bool := 48 ≤ c.toNat && c.toNat ≤ 57

def hexVal (c : Char) : Option Nat :=
  if 48 ≤ c.toNat && c.toNat ≤ 57 then some (c.toNat - 48)
  else if 97 ≤ c.toNat && c.toNat ≤ 102 then some (c.toNat - 87)
  else if 65 ≤ c.toNat && c.toNat ≤ 70 then some (c.toNat - 55)
  else none

/-- Single-character escapes of the JSON grammar. -/
def unescChar (e : Char) : Option Char :=
  if e = '"' then some '"'
  else if e = '\\' then some '\\'
  else if e = '/' then some '/'
  else if e = 'b' then some '\x08'
  else if e = 'f' then some '\x0c'
  else if e = 'n' then some '\n'
  else if e = 'r' then some '\r'
  else if e = 't' then some '\t'
  else none

/-- The scalar value of four hex digits, most significant first. -/
def readHex4Val (h1 h2 h3 h4 : Char) : Option Nat :=
  match hexVal h1, hexVal h2, hexVal h3, hexVal h4 with
  | some v1, some v2, some v3, some v4 => some (((v1 * 16 + v2) * 16 + v3) * 16 + v4)
  | _, _, _, _ => none

/-- Parse the body of a JSON string after the opening quote, returning the
decoded characters and the input after the closing quote.  Fuel-indexed for
termination; any fuel above the string length behaves identically. -/
def parseStrBody : Nat → List Char → Option (List Char × List Char)
  | 0, _ => none
  | _ + 1, [] => none
  | fuel + 1, c :: rest =>
    if c = '"' then some ([], rest)
    else if c = '\\' then
      match rest with
      | [] => none
      | e :: rest2 =>
        match unescChar e with
        | some d => (parseStrBody fuel rest2).map (fun r => (d :: r.1, r.2))
        | none =>
          if e = 'u' then
            match rest2 with
            | h1 :: h2 :: h3 :: h4 :: rest3 =>
              match readHex4Val h1 h2 h3 h4 with
              | some v =>
                (parseStrBody fuel rest3).map (fun r => (Char.ofNat v :: r.1, r.2))
              | none => none
            | _ => none
          else none
    else (parseStrBody fuel rest).map (fun r => (c :: r.1, r.2))

def digitsToNat (ds : List Char) : Nat :=
  ds.foldl (fun a c => a * 10 + (c.toNat - 48)) 0

def parseNatTok (s : List Char) : Option (Nat × List Char) :=
  let ds := s.takeWhile isDigitC
  if ds.isEmpty then none else some (digitsToNat ds, s.dropWhile isDigitC)

def parseIntTok : List Char → Option (Int × List Char)
  | [] => none
  | c :: rest =>
    if c = '-' then (parseNatTok rest).map (fun r => (-(r.1 : Int), r.2))
    else (parseNatTok (c :: rest)).map (fun r => ((r.1 : Int), r.2))

/-- The next input character (if any) is not a digit: the condition under
which a number token cannot extend into the following text. -/
def digitBoundary : List Char → Bool
  | [] => true
  | c :: _ => !(isDigitC c)

/-- Recognise one of the three keyword literals at the head of the input. -/
def parseKeyword (s : List Char) : Option (JValue × List Char) :=
  match s with
  | 'n' :: 'u' :: 'l' :: 'l' :: r => some (.jnull, r)
  | 't' :: 'r' :: 'u' :: 'e' :: r => some (.jbool true, r)
  | 'f' :: 'a' :: 'l' :: 's' :: 'e' :: r => some (.jbool false, r)
  | _ => none

/-- Whether the input starts with the given character. -/
def headIs (x : Char) : List Char → Bool
  | [] => false
  | c :: _ => c = x

mutual
/-- Parse one JSON value, fuel-indexed for termination. -/
def parseVal : Nat → List Char → Option (JValue × List Char)
  | 0, _ => none
  | fuel + 1, s =>
    match skipWs s with
    | [] => none
    | c :: r =>
      if c = '-' || isDigitC c then
        (parseIntTok (c :: r)).map (fun q => (.jint q.1, q.2))
      else if c = '"' then (parseStrBody (r.length + 1) r).map (fun q => (.jstr q.1, q.2))
      else if c = '[' then
        if headIs ']' (skipWs r) then some (.jarr .anil, (skipWs r).tail)
        else (parseArrItems fuel r).map (fun q => (.jarr q.1, q.2))
      else if c = '{' then
        if headIs '}' (skipWs r) then some (.jobj .onil, (skipWs r).tail)
        else (parseObjItems fuel r).map (fun q => (.jobj q.1, q.2))
      else parseKeyword (c :: r)
/-- Parse a nonempty comma-separated list of values up to the closing ']'. -/
def parseArrItems : Nat → List Char → Option (JArr × List Char)
  | 0, _ => none
  | fuel + 1, s =>
    (parseVal fuel s).bind (fun q =>
      if headIs ',' (skipWs q.2) then
        (parseArrItems fuel ((skipWs q.2).tail)).map (fun t => (.acons q.1 t.1, t.2))
      else if headIs ']' (skipWs q.2) then some (.acons q.1 .anil, (skipWs q.2).tail)
      else none)
/-- Parse a nonempty comma-separated list of members up to the closing '}'. -/
def parseObjItems : Nat → List Char → Option (JObj × List Char)
  | 0, _ => none
  | fuel + 1, s =>
    if headIs '"' (skipWs s) then
      (parseStrBody (((skipWs s).tail).length + 1) ((skipWs s).tail)).bind (fun kq =>
        if headIs ':' (skipWs kq.2) then
          (parseVal fuel ((skipWs kq.2).tail)).bind (fun vq =>
            if headIs ',' (skipWs vq.2) then
              (parseObjItems fuel ((skipWs vq.2).tail)).map
                (fun t => (.ocons kq.1 vq.1 t.1, t.2))
            else if headIs '}' (skipWs vq.2) then
              some (.ocons kq.1 vq.1 .onil, (skipWs vq.2).tail)
            else none)
        else none)
    else none
end

/-- json.loads: parse a complete JSON document, rejecting trailing garbage. -/
def jloads (s : List Char) : Option JValue :=
  match parseVal (s.length + 1) s with
  | some (v, r) => if (skipWs r).isEmpty then some v else none
  | none => none

/-! ### Helper predicates for stating the sanitization properties -/

def isNlB (c : Char) : Bool := c = '\n'

/-- No two adjacent characters of `l` both satisfy `p`: the output language of
the run-collapsing regexes. -/
def noRun (p : Char → Bool) (l : List Char) : Prop :=
  l.Chain' (fun a b => ¬(p a = true ∧ p b = true))

instance instDecNoRun (p : Char → Bool) : (l : List Char) → Decidable (noRun p l)
  | [] => isTrue List.chain'_nil
  | [_] => isTrue (List.chain'_singleton _)
  | a :: b :: t =>
    match instDecNoRun p (b :: t) with
    | isTrue h =>
      if hab : p a = true ∧ p b = true then
        isFalse (fun hc => (List.chain'_cons.mp hc).1 hab)
      else isTrue (List.chain'_cons.mpr ⟨hab, h⟩)
    | isFalse h => isFalse (fun hc => h (List.chain'_cons.mp hc).2)

/-- String.toList shorthand for concrete examples. -/
def cl (s : String) : List Char := s.toList

/-- UTF-8 encoding restricted to ASCII payloads (all sanitized output is
ASCII-only, where UTF-8 is just the character code). -/
def asciiEnc (s : List Char) : List Nat := s.map Char.toNat

/-- The empty filesystem (beyond the implicit root). -/
def fsEmpty : FS := fun _ => none

/-- The text content of the file at `p`, decoded as UTF-8. -/
def fileTextAt (fs : FS) (p : Path) : Option (List Char) :=
  match entryAt fs p with
  | some (.file bs _ _) => utf8Decode bs
  | _ => none

/-- Modelled from the spec (section 4.1): the requested checks in the order the
spec lists them — existence, expected kind, hidden, readable, writable — each
contributing its failure reason when violated.  The spec says the first
failing check wins. -/
def specCheckOrder (fs : FS) (p : Path) (must_exist : Bool) (isFileOpt : Option Bool)
    (readable : Bool) (writable : Bool) (allow_hidden : Bool) : List Reason :=
  (if must_exist && (entryAt fs p).isNone then [Reason.notExists] else [])
  ++ (if (match isFileOpt with | some true => !(isFileAt fs p) | _ => false) then
        [Reason.expectedFile] else [])
  ++ (if (match isFileOpt with | some false => !(isDirAt fs p) | _ => false) then
        [Reason.expectedDir] else [])
  ++ (if !allow_hidden && (segName p).startsWith "." then [Reason.hiddenRejected] else [])
  ++ (if readable && !(canRead fs p) then [Reason.notReadable] else [])
  ++ (if writable && !(canWrite fs p) then [Reason.notWritable] else [])

/-! ### Fuel measures for the parser -/

mutual
/-- Fuel sufficient for parseVal to consume the compact dump of a value. -/
def needV : JValue → Nat
  | .jarr (.acons x xs) => 1 + needA x xs
  | .jobj (.ocons _ v kvs) => 1 + needO v kvs
  | _ => 1
termination_by d => sizeOf d
/-- Fuel sufficient for parseArrItems on a dumped nonempty item list. -/
def needA : JValue → JArr → Nat
  | x, .anil => 1 + needV x
  | x, .acons y ys => 1 + max (needV x) (needA y ys)
termination_by x xs => sizeOf x + sizeOf xs
/-- Fuel sufficient for parseObjItems on a dumped nonempty member list. -/
def needO : JValue → JObj → Nat
  | v, .onil => 1 + needV v
  | v, .ocons _ v2 tl => 1 + max (needV v) (needO v2 tl)
termination_by v kvs => sizeOf v + sizeOf kvs
end

/-! ### Lemmas: collapse and strip -/

theorem collapseNlAux_head_true (l : List Char) :
    ∀ c, (collapseNlAux true l).head? = some c → c ≠ '\n' := by
  induction l with
  | nil => intro c h; simp [collapseNlAux] at h
  | cons a t ih =>
    intro c h
    by_cases ha : a = '\n'
    · simp [collapseNlAux, ha] at h; exact ih c h
    · simp [collapseNlAux, ha] at h; rw [← h]; exact ha

theorem collapseNlAux_noRun (l : List Char) : ∀ b, noRun isNlB (collapseNlAux b l) := by
  induction l with
  | nil => intro b; simp [collapseNlAux, noRun]
  | cons a t ih =>
    intro b
    by_cases ha : a = '\n'
    · cases b with
      | true => simpa [collapseNlAux, ha] using ih true
      | false =>
        simp only [collapseNlAux, ha, if_pos, if_neg, List.singleton_append]
        refine List.chain'_cons'.mpr ⟨?_, ih true⟩
        intro y hy hc
        exact collapseNlAux_head_true t y hy (by simpa [isNlB] using hc.2)
    · simp only [collapseNlAux, if_neg ha]
      refine List.chain'_cons'.mpr ⟨?_, ih false⟩
      intro y _ hc
      exact ha (by simpa [isNlB] using hc.1)

theorem collapseSpAux_head_true (l : List Char) :
    ∀ c, (collapseSpAux true l).head? = some c → isSpTab c = false := by
  induction l with
  | nil => intro c h; simp [collapseSpAux] at h
  | cons a t ih =>
    intro c h
    by_cases ha : isSpTab a = true
    · simp [collapseSpAux, ha] at h; exact ih c h
    · simp [collapseSpAux, ha] at h; rw [← h]; simpa using ha

theorem collapseSpAux_noRun (l : List Char) : ∀ b, noRun isSpTab (collapseSpAux b l) := by
  induction l with
  | nil => intro b; simp [collapseSpAux, noRun]
  | cons a t ih =>
    intro b
    by_cases ha : isSpTab a = true
    · cases b with
      | true => simpa [collapseSpAux, ha] using ih true
      | false =>
        simp only [collapseSpAux, ha, if_pos, if_neg, List.singleton_append]
        refine List.chain'_cons'.mpr ⟨?_, ih true⟩
        intro y hy hc
        exact absurd hc.2 (by simp [collapseSpAux_head_true t y hy])
    · simp only [collapseSpAux, if_neg ha]
      refine List.chain'_cons'.mpr ⟨?_, ih false⟩
      intro y _ hc
      exact ha hc.1

theorem collapseSpAux_false_head (l : List Char) :
    ∀ c, (collapseSpAux false l).head? = some c → isNlB c = true → l.head? = some c := by
  cases l with
  | nil => intro c h; simp [collapseSpAux] at h
  | cons a t =>
    intro c h hnl
    by_cases ha : isSpTab a = true
    · simp [collapseSpAux, ha] at h
      rw [← h] at hnl; simp [isNlB] at hnl
    · simp [collapseSpAux, ha] at h; simp [h]

theorem collapseSpAux_preserves_noRunNl (l : List Char) :
    ∀ b, noRun isNlB l → noRun isNlB (collapseSpAux b l) := by
  induction l with
  | nil => intro b _; simp [collapseSpAux, noRun]
  | cons a t ih =>
    intro b hl
    have ht : noRun isNlB t := hl.tail
    by_cases ha : isSpTab a = true
    · cases b with
      | true => simpa [collapseSpAux, ha] using ih true ht
      | false =>
        simp only [collapseSpAux, ha, if_pos, if_neg, List.singleton_append]
        refine List.chain'_cons'.mpr ⟨?_, ih true ht⟩
        intro y _ hc
        have : isNlB ' ' = true := hc.1
        simp [isNlB] at this
    · simp only [collapseSpAux, if_neg ha]
      refine List.chain'_cons'.mpr ⟨?_, ih false ht⟩
      intro y hy hc
      have hty : t.head? = some y := collapseSpAux_false_head t y hy hc.2
      have := (List.chain'_cons'.mp hl).1 y hty
      exact this hc

theorem chain'_dropWhile {R : Char → Char → Prop} (q : Char → Bool) (l : List Char)
    (h : l.Chain' R) : (l.dropWhile q).Chain' R := by
  induction l with
  | nil => simpa using h
  | cons a t ih =>
    by_cases hq : q a = true
    · simpa [List.dropWhile, hq] using ih h.tail
    · simpa [List.dropWhile, hq] using h

theorem noRun_reverse (p : Char → Bool) (l : List Char) (h : noRun p l) :
    noRun p l.reverse := by
  unfold noRun at *
  rw [List.chain'_reverse]
  exact h.imp (fun a b hab hc => hab ⟨hc.2, hc.1⟩)

theorem noRun_pyStrip (p : Char → Bool) (l : List Char) (h : noRun p l) :
    noRun p (pyStrip l) := by
  unfold pyStrip
  exact noRun_reverse _ _ (chain'_dropWhile _ _ (noRun_reverse _ _ (chain'_dropWhile _ _ h)))

theorem head?_dropWhile_not (q : Char → Bool) (l : List Char) :
    ∀ c, (l.dropWhile q).head? = some c → q c = false := by
  induction l with
  | nil => intro c h; simp at h
  | cons a t ih =>
    intro c h
    by_cases hq : q a = true
    · simp [List.dropWhile, hq] at h; exact ih c h
    · simp [List.dropWhile, hq] at h; rw [← h]; simpa using hq

theorem pyStrip_head (l : List Char) :
    ∀ c, (pyStrip l).head? = some c → isPySpace c = false := by
  intro c h
  unfold pyStrip at h
  rw [List.head?_reverse] at h
  rcases hY : ((l.dropWhile isPySpace).reverse.dropWhile isPySpace) with _ | ⟨y, ys⟩
  · rw [hY] at h; simp at h
  · have hne : ((l.dropWhile isPySpace).reverse.dropWhile isPySpace) ≠ [] := by
      rw [hY]; exact List.cons_ne_nil y ys
    have hsplit := List.takeWhile_append_dropWhile
      (p := isPySpace) (l := (l.dropWhile isPySpace).reverse)
    have : ((l.dropWhile isPySpace).reverse.dropWhile isPySpace).getLast? =
        (l.dropWhile isPySpace).reverse.getLast? := by
      conv_rhs => rw [← hsplit]
      rw [List.getLast?_append_of_ne_nil _ hne]
    rw [this, List.getLast?_reverse] at h
    exact head?_dropWhile_not isPySpace l c h

theorem pyStrip_getLast (l : List Char) :
    ∀ c, (pyStrip l).getLast? = some c → isPySpace c = false := by
  intro c h
  unfold pyStrip at h
  rw [List.getLast?_reverse] at h
  exact head?_dropWhile_not isPySpace _ c h

/-! ### Lemmas: membership through the pipeline -/

theorem mem_collapseNlAux {c : Char} (l : List Char) :
    ∀ b, c ∈ collapseNlAux b l → c ∈ l ∨ c = '\n' := by
  induction l with
  | nil => intro b h; simp [collapseNlAux] at h
  | cons a t ih =>
    intro b h
    by_cases ha : a = '\n'
    · cases b with
      | true =>
        simp [collapseNlAux, ha] at h
        rcases ih true h with h' | h'
        · exact Or.inl (List.mem_cons_of_mem _ h')
        · exact Or.inr h'
      | false =>
        simp [collapseNlAux, ha] at h
        rcases h with h | h
        · exact Or.inr h
        · rcases ih true h with h' | h'
          · exact Or.inl (List.mem_cons_of_mem _ h')
          · exact Or.inr h'
    · simp [collapseNlAux, ha] at h
      rcases h with h | h
      · exact Or.inl (by simp [h])
      · rcases ih false h with h' | h'
        · exact Or.inl (List.mem_cons_of_mem _ h')
        · exact Or.inr h'

theorem mem_collapseSpAux {c : Char} (l : List Char) :
    ∀ b, c ∈ collapseSpAux b l → c ∈ l ∨ c = ' ' := by
  induction l with
  | nil => intro b h; simp [collapseSpAux] at h
  | cons a t ih =>
    intro b h
    by_cases ha : isSpTab a = true
    · cases b with
      | true =>
        simp [collapseSpAux, ha] at h
        rcases ih true h with h' | h'
        · exact Or.inl (List.mem_cons_of_mem _ h')
        · exact Or.inr h'
      | false =>
        simp [collapseSpAux, ha] at h
        rcases h with h | h
        · exact Or.inr h
        · rcases ih true h with h' | h'
          · exact Or.inl (List.mem_cons_of_mem _ h')
          · exact Or.inr h'
    · simp [collapseSpAux, ha] at h
      rcases h with h | h
      · exact Or.inl (by simp [h])
      · rcases ih false h with h' | h'
        · exact Or.inl (List.mem_cons_of_mem _ h')
        · exact Or.inr h'

theorem mem_dropWhile {c : Char} (q : Char → Bool) (l : List Char)
    (h : c ∈ l.dropWhile q) : c ∈ l := by
  have := List.takeWhile_append_dropWhile (p := q) (l := l)
  rw [← this]
  exact List.mem_append_right _ h

theorem mem_pyStrip {c : Char} (l : List Char) (h : c ∈ pyStrip l) : c ∈ l := by
  unfold pyStrip at h
  rw [List.mem_reverse] at h
  have h1 := mem_dropWhile _ _ h
  rw [List.mem_reverse] at h1
  exact mem_dropWhile _ _ h1

theorem mem_replCrlf {c : Char} (l : List Char) (h : c ∈ replCrlf l) :
    c ∈ l ∨ c = '\n' := by
  induction l using replCrlf.induct with
  | case1 rest ih =>
    simp [replCrlf] at h
    rcases h with h | h
    · exact Or.inr h
    · rcases ih h with h' | h'
      · exact Or.inl (by simp [h'])
      · exact Or.inr h'
  | case2 a rest hne ih =>
    simp [replCrlf] at h
    rcases h with h | h
    · exact Or.inl (by simp [h])
    · rcases ih h with h' | h'
      · exact Or.inl (List.mem_cons_of_mem _ h')
      · exact Or.inr h'
  | case3 => simp [replCrlf] at h

theorem mem_replCr {c : Char} (l : List Char) (h : c ∈ replCr l) :
    c ∈ l ∨ c = '\n' := by
  unfold replCr at h
  rw [List.mem_map] at h
  obtain ⟨d, hd, hdc⟩ := h
  by_cases hdr : d = '\r'
  · right; rw [← hdc]; simp [hdr]
  · left; rw [← hdc]; simpa [hdr] using hd

/-! ### Lemmas: identity cases of the pipeline -/

theorem replCrlf_cons_of_ne (a : Char) (rest : List Char)
    (hne : ∀ rest2, a = '\r' → rest = '\n' :: rest2 → False) :
    replCrlf (a :: rest) = a :: replCrlf rest := by
  by_cases ha : a = '\r'
  · cases rest with
    | nil => subst ha; rfl
    | cons b t =>
      by_cases hb : b = '\n'
      · exact absurd (hb ▸ rfl) (fun hc => hne t ha hc)
      · subst ha; simp [replCrlf, hb]
  · cases rest with
    | nil => simp [replCrlf]
    | cons b t => simp [replCrlf, ha]

theorem replCrlf_eq_self (l : List Char) (h : '\r' ∉ l) : replCrlf l = l := by
  induction l using replCrlf.induct with
  | case1 rest ih => simp at h
  | case2 a rest hne ih =>
    simp only [List.mem_cons, not_or] at h
    rw [replCrlf_cons_of_ne a rest hne, ih (h.2)]
  | case3 => rfl

theorem replCr_eq_self (l : List Char) (h : '\r' ∉ l) : replCr l = l := by
  unfold replCr
  induction l with
  | nil => rfl
  | cons a t ih =>
    simp only [List.mem_cons, not_or] at h
    have ha : ¬(a = '\r') := fun hc => h.1 hc.symm
    simp [ha, ih h.2]

theorem collapseNlAux_eq_self (l : List Char) (h : '\n' ∉ l) :
    ∀ b, collapseNlAux b l = l := by
  induction l with
  | nil => intro b; rfl
  | cons a t ih =>
    intro b
    simp only [List.mem_cons, not_or] at h
    have ha : ¬(a = '\n') := fun hc => h.1 hc.symm
    simp [collapseNlAux, ha, ih h.2]

theorem pyStrip_nil : pyStrip [] = [] := rfl

theorem collapseSpAux_eq_self (l : List Char) (htab : '\t' ∉ l) (hrun : noRun isSpTab l) :
    collapseSpAux false l = l ∧
      ((∀ c, l.head? = some c → isSpTab c = false) → collapseSpAux true l = l) := by
  induction l with
  | nil => exact ⟨rfl, fun _ => rfl⟩
  | cons a t ih =>
    simp only [List.mem_cons, not_or] at htab
    have hat : ¬(a = '\t') := fun hc => htab.1 hc.symm
    have iht := ih htab.2 hrun.tail
    by_cases ha : isSpTab a = true
    · have hsp : a = ' ' := by
        rcases (by simpa [isSpTab] using ha : a = ' ' ∨ a = '\t') with h | h
        · exact h
        · exact absurd h (fun hc => hat hc)
      have hthead : ∀ c, t.head? = some c → isSpTab c = false := by
        intro c hc
        have := (List.chain'_cons'.mp hrun).1 c hc
        by_contra hcc
        exact this ⟨ha, by simpa using hcc⟩
      constructor
      · simp [collapseSpAux, isSpTab, ha, iht.2 hthead, hsp]
      · intro hhead
        have := hhead a rfl
        rw [ha] at this; cases this
    · constructor
      · simp only [collapseSpAux, if_neg ha]
        rw [iht.1]
      · intro _
        simp only [collapseSpAux, if_neg ha]
        rw [iht.1]

theorem dropWhile_eq_self_of_head (q : Char → Bool) (l : List Char)
    (h : ∀ c, l.head? = some c → q c = false) : l.dropWhile q = l := by
  cases l with
  | nil => rfl
  | cons a t =>
    have := h a rfl
    simp [List.dropWhile, this]

theorem pyStrip_eq_self (l : List Char)
    (h1 : ∀ c, l.head? = some c → isPySpace c = false)
    (h2 : ∀ c, l.getLast? = some c → isPySpace c = false) : pyStrip l = l := by
  unfold pyStrip
  rw [dropWhile_eq_self_of_head _ _ h1]
  rw [dropWhile_eq_self_of_head _ _ (by intro c hc; rw [List.head?_reverse] at hc; exact h2 c hc)]
  exact List.reverse_reverse l

/-! ### Lemmas: the shape of successful sanitization -/

theorem sanitizeContent_ok_shape (c : Content) (compact : Bool) (out : List Char)
    (h : sanitizeContent c compact = .ok out) :
    ∃ s0, contentToStr c compact = .ok s0 ∧
      out = (if compact then
               pyStrip (collapseSp (collapseNl (replCr (replCrlf (s0.filter keepChar)))))
             else replCr (replCrlf (s0.filter keepChar))) ∧
      out ≠ [] := by
  unfold sanitizeContent at h
  rcases hc : contentToStr c compact with e | s0 <;> rw [hc] at h
  · cases h
  · refine ⟨s0, rfl, ?_⟩
    by_cases hempty :
        (pyStrip (if compact then
          pyStrip (collapseSp (collapseNl (replCr (replCrlf (s0.filter keepChar)))))
        else replCr (replCrlf (s0.filter keepChar)))).isEmpty = true
    · simp only [hempty, if_pos] at h
      cases h
    · simp only [hempty, Bool.false_eq_true, if_neg, if_false] at h
      cases h
      refine ⟨rfl, ?_⟩
      intro hnil
      rw [hnil] at hempty
      exact hempty (by rfl)

theorem cr_not_mem_filter (s : List Char) : '\r' ∉ s.filter keepChar := by
  intro h
  have := (List.mem_filter.mp h).2
  simp [keepChar] at this

theorem tab_nl_mem_keep : keepChar '\t' = true ∧ keepChar '\n' = true := by decide

theorem cr_not_mem_compact_pipeline (x : List Char) (h : '\r' ∉ x) :
    '\r' ∉ pyStrip (collapseSp (collapseNl x)) := by
  intro hmem
  have h1 := mem_pyStrip _ hmem
  rcases mem_collapseSpAux _ _ h1 with h2 | h2
  · rcases mem_collapseNlAux _ _ h2 with h3 | h3
    · exact h h3
    · exact absurd h3 (by decide)
  · exact absurd h2 (by decide)

/-- C2 (counterexample): on input "a\rb" the lone CR is removed, not turned
into an LF: the output is "ab" and contains no LF at all, against the claim
that each lone CR character becomes an LF in the output. -/
theorem c2_lone_cr_counterexample :
    sanitizeContent (.pstr ['a', '\r', 'b']) false = .ok ['a', 'b'] ∧
    '\n' ∉ (['a', 'b'] : List Char) := by
  constructor
  · rfl
  · decide

/-- C2 (amended): sanitization removes every CR character during the
control-character strip, before the line-ending replacements run: CRLF becomes
LF because the CR is dropped and the LF kept, a lone CR is deleted rather than
converted, and the output contains no CR, so only LF line breaks remain.  On a
string input without compaction the result is exactly the input restricted to
the kept characters. -/
theorem c2_cr_removed (s : List Char) (compact : Bool) (out : List Char)
    (h : sanitizeContent (.pstr s) compact = .ok out) :
    '\r' ∉ out ∧ (compact = false → out = s.filter keepChar) := by
  obtain ⟨s0, hs0, hout, -⟩ := sanitizeContent_ok_shape _ _ _ h
  have hs : s0 = s := by
    simp only [contentToStr] at hs0
    exact (Except.ok.inj hs0).symm
  subst hs
  have hcr : '\r' ∉ s0.filter keepChar := cr_not_mem_filter s0
  have hid : replCr (replCrlf (s0.filter keepChar)) = s0.filter keepChar := by
    rw [replCrlf_eq_self _ hcr, replCr_eq_self _ hcr]
  cases compact with
  | false =>
    simp only [if_neg, Bool.false_eq_true, if_false] at hout
    rw [hout, hid]
    exact ⟨hcr, fun _ => rfl⟩
  | true =>
    simp only [if_pos] at hout
    rw [hout, hid]
    refine ⟨cr_not_mem_compact_pipeline _ hcr, ?_⟩
    intro hc; cases hc

/-- Witness for c2_cr_removed at the concrete input "a\rb". -/
theorem c2_cr_removed_witness :
    '\r' ∉ (['a', 'b'] : List Char) ∧
    (false = false → (['a', 'b'] : List Char) = ['a', '\r', 'b'].filter keepChar) :=
  c2_cr_removed ['a', '\r', 'b'] false ['a', 'b'] (by rfl)

/-- C7: with compact=true, every successful sanitization result has no two
consecutive newlines, no run of two or more space/tab characters, and no
leading or trailing whitespace. -/
theorem c7_compact_shape (c : Content) (out : List Char)
    (h : sanitizeContent c true = .ok out) :
    noRun isNlB out ∧ noRun isSpTab out ∧
    (∀ ch, out.head? = some ch → isPySpace ch = false) ∧
    (∀ ch, out.getLast? = some ch → isPySpace ch = false) := by
  obtain ⟨s0, -, hout, -⟩ := sanitizeContent_ok_shape _ _ _ h
  simp only [if_pos] at hout
  subst hout
  refine ⟨?_, ?_, pyStrip_head _, pyStrip_getLast _⟩
  · exact noRun_pyStrip _ _
      (collapseSpAux_preserves_noRunNl _ _ (collapseNlAux_noRun _ _))
  · exact noRun_pyStrip _ _ (collapseSpAux_noRun _ _)

/-- Witness for c7_compact_shape at the input "a  b\n\nc". -/
theorem c7_compact_shape_witness :
    noRun isNlB (cl "a b\nc") ∧ noRun isSpTab (cl "a b\nc") ∧
    (∀ ch, (cl "a b\nc").head? = some ch → isPySpace ch = false) ∧
    (∀ ch, (cl "a b\nc").getLast? = some ch → isPySpace ch = false) :=
  c7_compact_shape (.pstr (cl "a  b\n\nc")) (cl "a b\nc") (by rfl)

/-! ### C6: first-failure reporting order of _validate_path -/

/-- C6: _validate_path reports the error of the first failing check, in the
order existence, expected kind (file/directory), hidden rejection,
readability, writability, and succeeds exactly when no requested check fails.
In particular a non-existing hidden path with must_exist set fails with the
not-exists reason, not the hidden-rejection reason. -/
theorem c6_validatePath_first_failure (fs : FS) (p : Path) (must_exist : Bool)
    (isFileOpt : Option Bool) (readable : Bool) (writable : Bool) (allow_hidden : Bool) :
    validatePath fs p must_exist isFileOpt readable writable allow_hidden =
      (match (specCheckOrder fs p must_exist isFileOpt readable writable allow_hidden).head? with
       | some r => .error (.pve p r)
       | none => .ok p) := by
  rcases isFileOpt with _ | b
  · by_cases h1 : (must_exist && (entryAt fs p).isNone) = true <;>
      by_cases h4 : (!allow_hidden && (segName p).startsWith ".") = true <;>
        by_cases h5 : (readable && !(canRead fs p)) = true <;>
          by_cases h6 : (writable && !(canWrite fs p)) = true <;>
            simp [validatePath, specCheckOrder, h1, h4, h5, h6]
  · cases b
    · by_cases h1 : (must_exist && (entryAt fs p).isNone) = true <;>
        by_cases h3 : isDirAt fs p = true <;>
          by_cases h4 : (!allow_hidden && (segName p).startsWith ".") = true <;>
            by_cases h5 : (readable && !(canRead fs p)) = true <;>
              by_cases h6 : (writable && !(canWrite fs p)) = true <;>
                simp [validatePath, specCheckOrder, h1, h3, h4, h5, h6]
    · by_cases h1 : (must_exist && (entryAt fs p).isNone) = true <;>
        by_cases h2 : isFileAt fs p = true <;>
          by_cases h4 : (!allow_hidden && (segName p).startsWith ".") = true <;>
            by_cases h5 : (readable && !(canRead fs p)) = true <;>
              by_cases h6 : (writable && !(canWrite fs p)) = true <;>
                simp [validatePath, specCheckOrder, h1, h2, h4, h5, h6]

/-! ### C1: delete_file on a missing path with ignore_missing=true -/

/-- C1 (code evaluated at the failing input): deleting a missing path with
ignore_missing=true raises PathValidationError('O caminho não existe') instead
of returning False: _validate_path signals the missing path with
PathValidationError, never FileNotFoundError, so the except branch that
implements ignore_missing is unreachable.  The repository's own test
test_delete_missing_file_ignore_true asserts the call returns False. -/
theorem c1_delete_missing_ignore_true_raises :
    deleteFile fsEmpty ["missing.txt"] true =
      (.error (.pve ["missing.txt"] .notExists), fsEmpty) ∧
    (deleteFile fsEmpty ["missing.txt"] true).1 ≠ .ok false := by
  exact ⟨rfl, by decide⟩

/-! ### C8: delete_file on a directory -/

/-- C8: delete_file on an existing directory fails with the wrong-kind error
('Esperado arquivo, mas não é.') for either value of ignore_missing, and
leaves the filesystem unchanged, so the directory is not removed. -/
theorem c8_delete_directory_fails (fs : FS) (p : Path) (r w : Bool) (b : Bool)
    (h : entryAt fs p = some (.dir r w)) :
    deleteFile fs p b = (.error (.pve p .expectedFile), fs) := by
  unfold deleteFile validatePath
  have hsome : (entryAt fs p).isNone = false := by rw [h]; rfl
  have hfile : isFileAt fs p = false := by unfold isFileAt; rw [h]
  simp [hsome, hfile]

/-- Witness for c8_delete_directory_fails on a one-directory filesystem. -/
theorem c8_delete_directory_fails_witness :
    deleteFile (fun q => if q = ["d"] then some (.dir true true) else none) ["d"] true =
      (.error (.pve ["d"] .expectedFile),
       fun q => if q = ["d"] then some (.dir true true) else none) :=
  c8_delete_directory_fails _ ["d"] true true true (by decide)

/-! ### C4: read_file on undecodable bytes -/

/-- C4 (code evaluated at the failing input): reading a file whose single byte
0xFF is not valid UTF-8 produces a TypeError, not a UnicodeDecodeError, because
the handler rebuilds UnicodeDecodeError with one argument and that constructor
call itself raises TypeError.  (The missing-path and unreadable cases do reach
the claimed NotFound / NotReadable reasons.) -/
theorem c4_read_undecodable_typeerror :
    readFile utf8Decode
        (fun q => if q = ["b.bin"] then some (.file [0xFF] true true) else none)
        ["b.bin"] false = .error .typeError ∧
    (Err.typeError ≠ Err.unicodeDecodeError) ∧
    readFile utf8Decode fsEmpty ["b.bin"] false =
      .error (.pve ["b.bin"] .notExists) ∧
    readFile utf8Decode
        (fun q => if q = ["b.bin"] then some (.file [65] false true) else none)
        ["b.bin"] false = .error (.pve ["b.bin"] .notReadable) := by
  refine ⟨by rfl, by decide, by rfl, by rfl⟩

/-! ### Lemmas: paths, initial segments and directory creation -/

theorem entryAt_ne_root (fs : FS) (p : Path) (h : p ≠ []) : entryAt fs p = fs p := by
  unfold entryAt; rw [if_neg h]

theorem entryAt_none_ne_nil (fs : FS) (p : Path) (h : entryAt fs p = none) : p ≠ [] := by
  intro hc
  rw [hc] at h
  unfold entryAt at h
  simp at h

theorem initSegs_nil : initSegs [] = [] := rfl

theorem mem_initSegs_length (q d : Path) (h : q ∈ initSegs d) : q.length ≤ d.length := by
  unfold initSegs at h
  rw [List.mem_map] at h
  obtain ⟨i, _, hq⟩ := h
  rw [← hq, List.length_take]
  omega

theorem self_mem_initSegs (d : Path) (h : d ≠ []) : d ∈ initSegs d := by
  unfold initSegs
  rw [List.mem_map]
  refine ⟨d.length - 1, ?_, ?_⟩
  · rw [List.mem_range]
    have : 0 < d.length := List.length_pos.mpr h
    omega
  · have : 0 < d.length := List.length_pos.mpr h
    have heq : d.length - 1 + 1 = d.length := by omega
    rw [heq, List.take_length]

theorem parentOf_length (p : Path) (h : p ≠ []) : (parentOf p).length = p.length - 1 := by
  unfold parentOf
  rw [List.length_dropLast]

theorem not_mem_initSegs_parent (p : Path) (h : p ≠ []) : p ∉ initSegs (parentOf p) := by
  intro hc
  have h1 := mem_initSegs_length _ _ hc
  rw [parentOf_length p h] at h1
  have : 0 < p.length := List.length_pos.mpr h
  omega

theorem mkdirAll_not_mem (fs : FS) (d q : Path) (h : q ∉ initSegs d) :
    mkdirAll fs d q = fs q := by
  unfold mkdirAll
  rw [if_neg]
  intro hc
  exact h hc.1

theorem mkdirAll_mem_missing (fs : FS) (d q : Path) (h1 : q ∈ initSegs d)
    (h2 : fs q = none) : mkdirAll fs d q = some (.dir true true) := by
  unfold mkdirAll
  rw [if_pos ⟨h1, h2⟩]

/-- _ensure_directory with the create_file defaults succeeds whenever no
initial segment of the target is a regular file, mkdir is not blocked by a
non-writable existing ancestor, and the target, when it is already a
directory, is writable; the touched paths are exactly the initial segments. -/
theorem ensureDirectory_fresh (fs : FS) (d : Path)
    (h3 : ∀ q ∈ initSegs d, isFileAt fs q = false)
    (h5 : mkdirBlocked fs d = false)
    (h4 : ∀ r w, entryAt fs d = some (.dir r w) → w = true) :
    ∃ fs', ensureDirectory fs d true true = (.ok d, fs') ∧
      (∀ q, q ∉ initSegs d → fs' q = fs q) ∧
      (∃ r w, entryAt fs' d = some (.dir r w) ∧ w = true) := by
  unfold ensureDirectory
  rcases hd : entryAt fs d with _ | e
  · have hne : d ≠ [] := entryAt_none_ne_nil fs d hd
    have hany : (initSegs d).any (fun q => isFileAt fs q) = false := by
      rw [List.any_eq_false]
      intro q hq
      rw [h3 q hq]
      exact Bool.false_ne_true
    refine ⟨mkdirAll fs d, by simp [hany, h5], ?_, ?_⟩
    · intro q hq
      exact mkdirAll_not_mem fs d q hq
    · refine ⟨true, true, ?_, rfl⟩
      rw [entryAt_ne_root _ _ hne]
      exact mkdirAll_mem_missing fs d d (self_mem_initSegs d hne)
        (by rw [← entryAt_ne_root fs d hne]; exact hd)
  · rcases e with ⟨bs, r, w⟩ | ⟨r, w⟩
    · exfalso
      have hne : d ≠ [] := by
        intro hc
        rw [hc] at hd
        unfold entryAt at hd
        simp at hd
      have := h3 d (self_mem_initSegs d hne)
      unfold isFileAt at this
      rw [hd] at this
      cases this
    · refine ⟨fs, by simp, fun q _ => rfl, r, w, hd, h4 r w hd⟩

/-- create_file succeeds on a fresh target when sanitization succeeds, no
initial segment of the parent is a regular file, mkdir is not blocked by a
non-writable existing ancestor, and the parent (when it already exists as a
directory) is writable; the created file holds exactly the encoded sanitized
content. -/
theorem createFile_fresh_success (enc : List Char → List Nat) (fs : FS) (p : Path)
    (content : Content) (overwrite compact : Bool) (txt : List Char)
    (h1 : entryAt fs p = none)
    (h2 : sanitizeContent content compact = .ok txt)
    (h3 : ∀ q ∈ initSegs (parentOf p), isFileAt fs q = false)
    (h5 : mkdirBlocked fs (parentOf p) = false)
    (h4 : ∀ r w, entryAt fs (parentOf p) = some (.dir r w) → w = true) :
    (createFile enc fs p content overwrite compact).1 = .ok p ∧
    (createFile enc fs p content overwrite compact).2 p =
      some (.file (enc txt) true true) := by
  have hp : p ≠ [] := entryAt_none_ne_nil fs p h1
  obtain ⟨fs', hens, huntouched, rr, ww, hdir, hw⟩ :=
    ensureDirectory_fresh fs (parentOf p) h3 h5 h4
  have hfs'p : entryAt fs' p = none := by
    rw [entryAt_ne_root _ _ hp, huntouched p (not_mem_initSegs_parent p hp),
      ← entryAt_ne_root fs p hp]
    exact h1
  have hwrite : writeText fs' p (enc txt) =
      .ok (fun q => if q = p then some (.file (enc txt) true true) else fs' q) := by
    unfold writeText
    rw [hfs'p, hdir, hw]
    simp
  unfold createFile
  simp only [h1, Option.isSome_none, Bool.false_and, Bool.false_eq_true, if_false,
    hens, h2, hwrite]
  exact ⟨trivial, by simp⟩

theorem not_mem_initSegs_parent' (p : Path) : p ∉ initSegs (parentOf p) := by
  by_cases hp : p = []
  · rw [hp]
    intro hc
    simp [parentOf, initSegs] at hc
  · exact not_mem_initSegs_parent p hp

theorem ensureDirectory_snd_not_mem (fs : FS) (d : Path) (cim eo : Bool) (q : Path)
    (h : q ∉ initSegs d) : (ensureDirectory fs d cim eo).2 q = fs q := by
  unfold ensureDirectory
  rcases hd : entryAt fs d with _ | e
  · by_cases hc : (!cim) = true
    · simp [hc]
    · by_cases hany : ((initSegs d).any fun q => isFileAt fs q) = true
      · simp [hc, hany]
      · by_cases hb : mkdirBlocked fs d = true
        · simp [hc, hany, hb]
        · simp [hc, hany, hb, mkdirAll_not_mem fs d q h]
  · rcases e with ⟨bs, r, w⟩ | ⟨r, w⟩
    · rfl
    · by_cases he : eo = true <;> simp [he]

theorem ensureDirectory_ok_cases (fs : FS) (d : Path)
    (h3 : ∀ q ∈ initSegs d, isFileAt fs q = false)
    (h5 : mkdirBlocked fs d = false) :
    ∃ fs', ensureDirectory fs d true true = (.ok d, fs') ∧
      (∀ q, q ∉ initSegs d → fs' q = fs q) ∧
      ((entryAt fs d = none ∧ fs' = mkdirAll fs d) ∨
        (∃ r w, entryAt fs d = some (.dir r w) ∧ fs' = fs)) := by
  unfold ensureDirectory
  rcases hd : entryAt fs d with _ | e
  · have hany : (initSegs d).any (fun q => isFileAt fs q) = false := by
      rw [List.any_eq_false]
      intro q hq
      rw [h3 q hq]
      exact Bool.false_ne_true
    refine ⟨mkdirAll fs d, by simp [hany, h5], ?_, Or.inl ⟨rfl, rfl⟩⟩
    intro q hq
    exact mkdirAll_not_mem fs d q hq
  · rcases e with ⟨bs, r, w⟩ | ⟨r, w⟩
    · exfalso
      have hne : d ≠ [] := by
        intro hc
        rw [hc] at hd
        unfold entryAt at hd
        simp at hd
      have := h3 d (self_mem_initSegs d hne)
      unfold isFileAt at this
      rw [hd] at this
      cases this
    · exact ⟨fs, by simp, fun q _ => rfl, Or.inr ⟨r, w, rfl, rfl⟩⟩

theorem writeText_ok_shape (fs : FS) (p : Path) (bs : List Nat) (fs2 : FS)
    (h : writeText fs p bs = .ok fs2) : ∃ r w, fs2 p = some (.file bs r w) := by
  unfold writeText at h
  rcases he : entryAt fs p with _ | (⟨ebs, er, ew⟩ | ⟨er, ew⟩) <;> rw [he] at h
  · rcases hpar : entryAt fs (parentOf p) with _ | (⟨pbs, pr, pw⟩ | ⟨pr, pw⟩) <;>
      rw [hpar] at h <;> dsimp only at h
    · exact Except.noConfusion h
    · exact Except.noConfusion h
    · by_cases hw : pw = true
      · rw [if_pos hw] at h
        cases h
        exact ⟨true, true, by simp⟩
      · rw [if_neg hw] at h
        exact Except.noConfusion h
  · dsimp only at h
    by_cases hw : ew = true
    · rw [if_pos hw] at h
      cases h
      exact ⟨er, ew, by simp⟩
    · rw [if_neg hw] at h
      exact Except.noConfusion h
  · dsimp only at h
    exact Except.noConfusion h

/-- In every failing run of create_file the target path's entry is unchanged:
no error path writes the file. -/
theorem createFile_error_target_unchanged (enc : List Char → List Nat) (fs : FS)
    (p : Path) (data : Content) (ow k : Bool) (e : Err)
    (h : (createFile enc fs p data ow k).1 = .error e) :
    (createFile enc fs p data ow k).2 p = fs p := by
  unfold createFile at *
  by_cases hfirst : ((entryAt fs p).isSome && !ow) = true
  · rw [if_pos hfirst] at h ⊢
  · rw [if_neg hfirst] at h ⊢
    rcases hens : ensureDirectory fs (parentOf p) true true with ⟨res, fs'⟩
    have hfs' : fs' p = fs p := by
      have := ensureDirectory_snd_not_mem fs (parentOf p) true true p
        (not_mem_initSegs_parent' p)
      rw [hens] at this
      exact this
    rw [hens] at h
    rcases res with eres | dres
    · exact hfs'
    · dsimp only at h
      rcases hsan : sanitizeContent data k with esan | txt <;> rw [hsan] at h <;>
        dsimp only at h
      · exact hfs'
      · rcases hw : writeText fs' p (enc txt) with ew | fs2
        · rw [hw] at h
          dsimp only
          rw [hw]
          rcases ew <;> exact hfs'
        · rw [hw] at h
          exact absurd h (fun hc => Except.noConfusion hc)

/-- Error shapes of _ensure_directory: always a PathValidationError on the
directory path with one of the five directory reasons. -/
theorem ensureDirectory_error_shape (fs : FS) (d : Path) (cim eo : Bool) (e : Err)
    (h : (ensureDirectory fs d cim eo).1 = .error e) :
    ∃ r, e = .pve d r ∧
      (r = .dirAlreadyExists ∨ r = .existsNotDir ∨ r = .dirNoCreate ∨
        r = .dirCreateFailed ∨ r = .dirCreatePermission) := by
  unfold ensureDirectory at h
  rcases hd : entryAt fs d with _ | ent <;> rw [hd] at h
  · by_cases hc : (!cim) = true
    · rw [if_pos hc] at h
      cases h
      exact ⟨.dirNoCreate, rfl, by simp⟩
    · rw [if_neg hc] at h
      by_cases hany : ((initSegs d).any fun q => isFileAt fs q) = true
      · rw [if_pos hany] at h
        cases h
        exact ⟨.dirCreateFailed, rfl, by simp⟩
      · rw [if_neg hany] at h
        by_cases hb : mkdirBlocked fs d = true
        · rw [if_pos hb] at h
          cases h
          exact ⟨.dirCreatePermission, rfl, by simp⟩
        · rw [if_neg hb] at h
          cases h
  · rcases ent with ⟨bs, r, w⟩ | ⟨r, w⟩
    · simp only at h
      cases h
      exact ⟨.existsNotDir, rfl, by simp⟩
    · by_cases he : eo = true
      · rw [if_pos he] at h; cases h
      · rw [if_neg he] at h
        cases h
        exact ⟨.dirAlreadyExists, rfl, by simp⟩

/-- Error shapes of _sanitize_content: TypeError for unsupported or
undecodable input, ValueError for the empty-after-sanitization check. -/
theorem sanitizeContent_error_shape (c : Content) (k : Bool) (e : Err)
    (h : sanitizeContent c k = .error e) : e = .typeError ∨ e = .valueError := by
  unfold sanitizeContent at h
  rcases hc : contentToStr c k with ec | s0 <;> rw [hc] at h
  · cases h
    unfold contentToStr at hc
    rcases c with s | b | kvs | xs | n | b | _ | _ <;> dsimp only at hc
    · cases hc
    · rcases hdec : utf8Decode b with _ | s <;> rw [hdec] at hc
      · cases hc; exact Or.inl rfl
      · cases hc
    · cases hc
    · cases hc
    · cases hc
    · cases hc
    · cases hc
    · cases hc; exact Or.inl rfl
  · dsimp only at h
    by_cases hempty : (pyStrip (if k = true then
        pyStrip (collapseSp (collapseNl (replCr (replCrlf (s0.filter keepChar)))))
      else replCr (replCrlf (s0.filter keepChar)))).isEmpty = true
    · rw [if_pos hempty] at h
      cases h
      exact Or.inr rfl
    · rw [if_neg hempty] at h
      cases h

/-- Shape of a successful writeText inside create_file: the result is ok-p and
the file entry carries the encoded sanitized text. -/
theorem createFile_ok_shape (enc : List Char → List Nat) (fs : FS) (p : Path)
    (data : Content) (ow k : Bool) (q : Path)
    (h : (createFile enc fs p data ow k).1 = .ok q) :
    q = p ∧ ∃ txt r w, sanitizeContent data k = .ok txt ∧ txt ≠ [] ∧
      (createFile enc fs p data ow k).2 p = some (.file (enc txt) r w) := by
  unfold createFile at *
  by_cases hfirst : ((entryAt fs p).isSome && !ow) = true
  · rw [if_pos hfirst] at h
    cases h
  · rw [if_neg hfirst] at h ⊢
    rcases hens : ensureDirectory fs (parentOf p) true true with ⟨res, fs'⟩
    rw [hens] at h
    rcases res with eres | dres
    · exact absurd h (by dsimp only; exact fun hc => Except.noConfusion hc)
    · dsimp only at h
      rcases hsan : sanitizeContent data k with esan | txt <;> rw [hsan] at h <;>
        dsimp only at h
      · exact absurd h (fun hc => Except.noConfusion hc)
      · rcases hw : writeText fs' p (enc txt) with ew | fs2 <;> rw [hw] at h
        · rcases ew <;>
            exact absurd h (by dsimp only; exact fun hc => Except.noConfusion hc)
        · have hq : q = p := by
            dsimp only at h
            exact (Except.ok.inj h).symm
          obtain ⟨-, -, -, hnil⟩ := sanitizeContent_ok_shape data k txt hsan
          obtain ⟨r, w, hfile⟩ := writeText_ok_shape fs' p (enc txt) fs2 hw
          dsimp only
          rw [hw]
          exact ⟨hq, txt, r, w, rfl, hnil, hfile⟩

/-- A fresh target can never trigger the overwrite error: every other error
site of create_file carries a different reason or error class. -/
theorem createFile_not_alreadyExists (enc : List Char → List Nat) (fs : FS) (p : Path)
    (data : Content) (ow k : Bool) (hfresh : (entryAt fs p).isSome = false) :
    (createFile enc fs p data ow k).1 ≠ .error (.pve p .alreadyExists) := by
  unfold createFile
  rw [hfresh]
  simp only [Bool.false_and, Bool.false_eq_true, if_false]
  rcases hens : ensureDirectory fs (parentOf p) true true with ⟨res, fs'⟩
  rcases res with eres | dres
  · dsimp only
    intro hc
    obtain ⟨r, hr, hrc⟩ := ensureDirectory_error_shape fs (parentOf p) true true eres
      (by rw [hens])
    have heq := Except.error.inj hc
    rw [heq] at hr
    injection hr with hpath hreason
    rcases hrc with h' | h' | h' | h' | h' <;> rw [h'] at hreason <;> cases hreason
  · dsimp only
    rcases hsan : sanitizeContent data k with esan | txt
    · dsimp only
      intro hc
      have heq := Except.error.inj hc
      rcases sanitizeContent_error_shape data k esan hsan with h' | h' <;>
        rw [h'] at heq <;> cases heq
    · dsimp only
      rcases hw : writeText fs' p (enc txt) with ew | fs2
      · rcases ew <;> dsimp only <;> intro hc <;>
          injection (Except.error.inj hc) with hpath hreason <;> cases hreason
      · dsimp only
        intro hc
        exact Except.noConfusion hc

theorem createFile_sanitize_error (enc : List Char → List Nat) (fs : FS) (p : Path)
    (data : Content) (ow k : Bool) (e : Err)
    (hsan : sanitizeContent data k = .error e)
    (how : ((entryAt fs p).isSome && !ow) = false)
    (h3 : ∀ q ∈ initSegs (parentOf p), isFileAt fs q = false)
    (h5 : mkdirBlocked fs (parentOf p) = false) :
    (createFile enc fs p data ow k).1 = .error e := by
  unfold createFile
  simp only [how, Bool.false_eq_true, if_false]
  obtain ⟨fs', hens, -, -⟩ := ensureDirectory_ok_cases fs (parentOf p) h3 h5
  rw [hens]
  dsimp only
  rw [hsan]

/-- C5 (counterexample): with the default empty content and overwrite=false on
a path that does not exist, create_file does not succeed: sanitization rejects
the empty content with ValueError, against the claim that every call on a
fresh path succeeds. -/
theorem c5_counterexample :
    entryAt fsEmpty ["t.txt"] = none ∧
    (createFile asciiEnc fsEmpty ["t.txt"] (.pstr []) false false).1 =
      .error .valueError := by
  exact ⟨rfl, rfl⟩

/-- C5 (amended): create_file(p, data, overwrite=false) fails with the
already-exists error iff p exists beforehand; when p does not exist AND
sanitization of data succeeds AND no initial segment of p's parent is a
regular file AND mkdir of the parent chain is not blocked by a non-writable
existing ancestor AND the parent, when it already exists as a directory, is
writable, the call succeeds and the file at p afterwards contains exactly the
encoded sanitized form of data. -/
theorem c5_overwrite_false (enc : List Char → List Nat) (fs : FS) (p : Path)
    (data : Content) (k : Bool) (txt : List Char) :
    ((createFile enc fs p data false k).1 = .error (.pve p .alreadyExists) ↔
      (entryAt fs p).isSome = true) ∧
    (entryAt fs p = none → sanitizeContent data k = .ok txt →
      (∀ q ∈ initSegs (parentOf p), isFileAt fs q = false) →
      mkdirBlocked fs (parentOf p) = false →
      (∀ r w, entryAt fs (parentOf p) = some (.dir r w) → w = true) →
      (createFile enc fs p data false k).1 = .ok p ∧
      (createFile enc fs p data false k).2 p = some (.file (enc txt) true true)) := by
  constructor
  · constructor
    · intro h
      by_contra hex
      have hfalse : (entryAt fs p).isSome = false := by
        cases hv : (entryAt fs p).isSome
        · rfl
        · exact absurd hv hex
      exact createFile_not_alreadyExists enc fs p data false k hfalse h
    · intro h
      unfold createFile
      rw [if_pos (by rw [h]; rfl)]
  · intro h1 h2 h3 h5 h4
    exact createFile_fresh_success enc fs p data false k txt h1 h2 h3 h5 h4

/-- Witness for c5_overwrite_false on the empty filesystem with content "hi". -/
theorem c5_overwrite_false_witness :
    (((createFile asciiEnc fsEmpty ["w.txt"] (.pstr (cl "hi")) false false).1 =
        .error (.pve ["w.txt"] .alreadyExists) ↔
      (entryAt fsEmpty ["w.txt"]).isSome = true) ∧
     ((createFile asciiEnc fsEmpty ["w.txt"] (.pstr (cl "hi")) false false).1 =
        .ok ["w.txt"] ∧
      (createFile asciiEnc fsEmpty ["w.txt"] (.pstr (cl "hi")) false false).2 ["w.txt"] =
        some (.file (asciiEnc (cl "hi")) true true))) := by
  refine ⟨(c5_overwrite_false asciiEnc fsEmpty ["w.txt"] (.pstr (cl "hi")) false
    (cl "hi")).1, ?_⟩
  exact (c5_overwrite_false asciiEnc fsEmpty ["w.txt"] (.pstr (cl "hi")) false
    (cl "hi")).2 (by rfl) (by rfl) (by decide) (by decide) (by decide)

/-- C9 (counterexample): create_file with the default empty content does not
always fail with the empty-content ValueError: when an ancestor of the target
exists as a regular file, the parent-directory step fails first with the
exists-not-directory PathValidationError. -/
theorem c9_counterexample :
    (createFile asciiEnc
        (fun q => if q = ["a"] then some (.file [] true true) else none)
        ["a", "b"] (.pstr []) true false).1 = .error (.pve ["a"] .existsNotDir) ∧
    (Err.pve ["a"] .existsNotDir) ≠ Err.valueError := by
  exact ⟨rfl, by decide⟩

/-- C9 (amended): whenever the overwrite check passes and the parent directory
step succeeds (no regular file on the parent chain and mkdir not blocked by a
non-writable existing ancestor), create_file on a value whose sanitized form
is empty fails with the empty-content ValueError; every failing call leaves
the target entry unchanged; and every successful call writes a non-empty
sanitized payload, so the library cannot produce an empty file. -/
theorem c9_no_empty_file :
    (∀ (enc : List Char → List Nat) (fs : FS) (p : Path) (data : Content) (ow k : Bool),
      sanitizeContent data k = .error .valueError →
      ((entryAt fs p).isSome && !ow) = false →
      (∀ q ∈ initSegs (parentOf p), isFileAt fs q = false) →
      mkdirBlocked fs (parentOf p) = false →
      (createFile enc fs p data ow k).1 = .error .valueError) ∧
    (∀ (enc : List Char → List Nat) (fs : FS) (p : Path) (data : Content) (ow k : Bool)
      (e : Err), (createFile enc fs p data ow k).1 = .error e →
      (createFile enc fs p data ow k).2 p = fs p) ∧
    (∀ (enc : List Char → List Nat) (fs : FS) (p : Path) (data : Content) (ow k : Bool)
      (q : Path), (createFile enc fs p data ow k).1 = .ok q →
      q = p ∧ ∃ txt r w, sanitizeContent data k = .ok txt ∧ txt ≠ [] ∧
        (createFile enc fs p data ow k).2 p = some (.file (enc txt) r w)) := by
  refine ⟨?_, ?_, ?_⟩
  · intro enc fs p data ow k hsan how h3 h5
    exact createFile_sanitize_error enc fs p data ow k .valueError hsan how h3 h5
  · intro enc fs p data ow k e h
    exact createFile_error_target_unchanged enc fs p data ow k e h
  · intro enc fs p data ow k q h
    exact createFile_ok_shape enc fs p data ow k q h

/-- Witness for c9_no_empty_file at concrete inputs. -/
theorem c9_no_empty_file_witness :
    ((createFile asciiEnc fsEmpty ["e.txt"] (.pstr []) true false).1 =
      .error .valueError) ∧
    ((createFile asciiEnc fsEmpty ["e.txt"] (.pstr []) true false).2 ["e.txt"] =
      fsEmpty ["e.txt"]) ∧
    (["w2.txt"] = (["w2.txt"] : Path) ∧ ∃ txt r w,
      sanitizeContent (.pstr (cl "ok")) false = .ok txt ∧ txt ≠ [] ∧
      (createFile asciiEnc fsEmpty ["w2.txt"] (.pstr (cl "ok")) true false).2 ["w2.txt"] =
        some (.file (asciiEnc txt) r w)) := by
  have h1 := c9_no_empty_file.1 asciiEnc fsEmpty ["e.txt"] (.pstr []) true false
    (by rfl) (by decide) (by decide) (by decide)
  refine ⟨h1, c9_no_empty_file.2.1 asciiEnc fsEmpty ["e.txt"] (.pstr []) true false
    .valueError h1, ?_⟩
  exact c9_no_empty_file.2.2 asciiEnc fsEmpty ["w2.txt"] (.pstr (cl "ok")) true false
    ["w2.txt"] (by rfl)

/-- C10: when the overwrite check passes, the parent directory is missing, no
initial segment of the parent is a regular file, mkdir is not blocked by a
non-writable existing ancestor, and sanitization fails, the call fails with
the sanitization error while the filesystem keeps the parent directories that
were created before sanitization ran: every previously missing initial
segment of the parent is a directory afterwards. -/
theorem c10_parent_dirs_persist (enc : List Char → List Nat) (fs : FS) (p : Path)
    (data : Content) (ow k : Bool) (e : Err)
    (how : ((entryAt fs p).isSome && !ow) = false)
    (hsan : sanitizeContent data k = .error e)
    (hpar : entryAt fs (parentOf p) = none)
    (h3 : ∀ q ∈ initSegs (parentOf p), isFileAt fs q = false)
    (h5 : mkdirBlocked fs (parentOf p) = false) :
    createFile enc fs p data ow k = (.error e, mkdirAll fs (parentOf p)) ∧
    ∀ q ∈ initSegs (parentOf p), entryAt fs q = none →
      (createFile enc fs p data ow k).2 q = some (.dir true true) := by
  obtain ⟨fs', hens, huntouched, hcases⟩ := ensureDirectory_ok_cases fs (parentOf p) h3 h5
  have hfs' : fs' = mkdirAll fs (parentOf p) := by
    rcases hcases with ⟨-, h⟩ | ⟨r, w, hdir, -⟩
    · exact h
    · rw [hpar] at hdir; cases hdir
  have heq : createFile enc fs p data ow k = (.error e, fs') := by
    unfold createFile
    simp only [how, Bool.false_eq_true, if_false]
    rw [hens]
    dsimp only
    rw [hsan]
  refine ⟨by rw [heq, hfs'], ?_⟩
  intro q hq hqnone
  rw [heq]
  dsimp only
  rw [hfs']
  have hqne : q ≠ [] := entryAt_none_ne_nil fs q hqnone
  exact mkdirAll_mem_missing fs (parentOf p) q hq
    (by rw [← entryAt_ne_root fs q hqne]; exact hqnone)

/-- Witness for c10_parent_dirs_persist: two missing parent directories remain
created although the write is rejected for empty content. -/
theorem c10_parent_dirs_persist_witness :
    createFile asciiEnc fsEmpty ["a", "b", "f.txt"] (.pstr []) true false =
      (.error .valueError, mkdirAll fsEmpty (parentOf ["a", "b", "f.txt"])) ∧
    ∀ q ∈ initSegs (parentOf ["a", "b", "f.txt"]), entryAt fsEmpty q = none →
      (createFile asciiEnc fsEmpty ["a", "b", "f.txt"] (.pstr []) true false).2 q =
        some (.dir true true) :=
  c10_parent_dirs_persist asciiEnc fsEmpty ["a", "b", "f.txt"] (.pstr []) true false
    .valueError (by decide) (by rfl) (by decide) (by decide) (by decide)

/-! ### Lemmas: characters and decimal digits -/

theorem toNat_ofNat_small (n : Nat) (h : n < 55296) : (Char.ofNat n).toNat = n := by
  have hv : Nat.isValidChar n := Or.inl h
  simp [Char.ofNat, hv, Char.ofNatAux, Char.toNat, UInt32.toNat, UInt32.ofNatCore]

theorem utf8Step_ascii (c : Char) (bs : List Nat) (h : c.toNat ≤ 0x7F) :
    utf8Step (c.toNat :: bs) = some (c, bs) := by
  unfold utf8Step
  dsimp only
  rw [if_pos h, Char.ofNat_toNat]

theorem utf8DecodeAux_ascii (s : List Char) : ∀ (f : Nat), s.length ≤ f →
    (∀ c ∈ s, c.toNat ≤ 0x7F) → utf8DecodeAux f (s.map Char.toNat) = some s := by
  induction s with
  | nil =>
    intro f _ _
    cases f <;> rfl
  | cons c t ih =>
    intro f hf h
    rcases f with _ | f'
    · simp at hf
    · have hc := h c (List.mem_cons_self c t)
      rw [List.map_cons]
      rw [show utf8DecodeAux (f' + 1) (c.toNat :: t.map Char.toNat) =
        (match utf8Step (c.toNat :: t.map Char.toNat) with
         | some (d, rest) => (utf8DecodeAux f' rest).map (d :: ·)
         | none => none) from rfl]
      rw [utf8Step_ascii c _ hc]
      dsimp only
      rw [ih f' (by rw [List.length_cons] at hf; omega)
        (fun d hd => h d (List.mem_cons_of_mem c hd))]
      rfl

theorem utf8Decode_ascii (s : List Char) (h : ∀ c ∈ s, c.toNat ≤ 0x7F) :
    utf8Decode (s.map Char.toNat) = some s := by
  unfold utf8Decode
  exact utf8DecodeAux_ascii s _ (by rw [List.length_map]) h

theorem natCharsF_irrel (f : Nat) : ∀ f' n, n < f → n < f' → natCharsF f n = natCharsF f' n := by
  induction f with
  | zero => intro f' n h _; omega
  | succ g ih =>
    intro f' n h h'
    rcases f' with _ | g'
    · omega
    rw [natCharsF, natCharsF]
    by_cases h10 : n < 10
    · rw [if_pos h10, if_pos h10]
    · rw [if_neg h10, if_neg h10]
      have hd : n / 10 < n := Nat.div_lt_self (by omega) (by omega)
      rw [ih g' (n / 10) (by omega) (by omega)]

theorem natChars_eq (n : Nat) :
    natChars n = if _h : n < 10 then [digitChar n]
      else natChars (n / 10) ++ [digitChar (n % 10)] := by
  show natCharsF (n + 1) n = _
  rw [natCharsF]
  by_cases h : n < 10
  · rw [if_pos h, dif_pos h]
  · rw [if_neg h, dif_neg h]
    have hd : n / 10 < n := Nat.div_lt_self (by omega) (by omega)
    rw [natCharsF_irrel n (n / 10 + 1) (n / 10) (by omega) (by omega)]
    rfl

theorem natChars_ne_nil (n : Nat) : natChars n ≠ [] := by
  rw [natChars_eq]
  by_cases h : n < 10
  · rw [dif_pos h]; exact List.cons_ne_nil _ _
  · rw [dif_neg h]
    intro hc
    exact absurd (List.append_eq_nil.mp hc).2 (List.cons_ne_nil _ _)

theorem natChars_digits (n : Nat) : ∀ c ∈ natChars n, isDigitC c = true := by
  induction n using Nat.strong_induction_on with
  | _ n ih =>
    rw [natChars_eq]
    by_cases h : n < 10
    · rw [dif_pos h]
      intro c hc
      rw [List.mem_singleton] at hc
      subst hc
      unfold isDigitC digitChar
      rw [toNat_ofNat_small (48 + n) (by omega)]
      simp only [Bool.and_eq_true, decide_eq_true_eq]
      omega
    · rw [dif_neg h]
      intro c hc
      rw [List.mem_append] at hc
      rcases hc with hc | hc
      · exact ih (n / 10) (Nat.div_lt_self (by omega) (by omega)) c hc
      · rw [List.mem_singleton] at hc
        subst hc
        unfold isDigitC digitChar
        rw [toNat_ofNat_small (48 + n % 10) (by omega)]
        simp only [Bool.and_eq_true, decide_eq_true_eq]
        omega

theorem digitsToNat_append_one (a : List Char) (c : Char) :
    digitsToNat (a ++ [c]) = digitsToNat a * 10 + (c.toNat - 48) := by
  unfold digitsToNat
  rw [List.foldl_append]
  rfl

theorem digitsToNat_natChars (n : Nat) : digitsToNat (natChars n) = n := by
  induction n using Nat.strong_induction_on with
  | _ n ih =>
    rw [natChars_eq]
    by_cases h : n < 10
    · rw [dif_pos h]
      unfold digitsToNat digitChar
      simp only [List.foldl_cons, List.foldl_nil]
      rw [toNat_ofNat_small (48 + n) (by omega)]
      omega
    · rw [dif_neg h]
      rw [digitsToNat_append_one, ih (n / 10) (Nat.div_lt_self (by omega) (by omega))]
      unfold digitChar
      rw [toNat_ofNat_small (48 + n % 10) (by omega)]
      omega

theorem takeWhile_digits (ds rest : List Char) (hds : ∀ c ∈ ds, isDigitC c = true)
    (hrest : digitBoundary rest = true) :
    (ds ++ rest).takeWhile isDigitC = ds ∧ (ds ++ rest).dropWhile isDigitC = rest := by
  induction ds with
  | nil =>
    cases rest with
    | nil => exact ⟨rfl, rfl⟩
    | cons c t =>
      have hc : isDigitC c = false := by
        unfold digitBoundary at hrest
        simpa using hrest
      simp [List.takeWhile, List.dropWhile, hc]
  | cons d ds ih =>
    have hd := hds d (List.mem_cons_self d ds)
    obtain ⟨h1, h2⟩ := ih (fun c hc => hds c (List.mem_cons_of_mem d hc))
    simp [List.takeWhile, List.dropWhile, hd, h1, h2]

theorem parseNatTok_natChars (m : Nat) (rest : List Char)
    (hb : digitBoundary rest = true) :
    parseNatTok (natChars m ++ rest) = some (m, rest) := by
  obtain ⟨h1, h2⟩ := takeWhile_digits (natChars m) rest (natChars_digits m) hb
  unfold parseNatTok
  rw [h1, h2]
  rw [if_neg (by simpa [List.isEmpty_iff] using natChars_ne_nil m)]
  rw [digitsToNat_natChars]

theorem isDigitC_not_special (c : Char) (h : isDigitC c = true) :
    isJsonWs c = false ∧ c ≠ ']' ∧ c ≠ '}' ∧ c ≠ '-' := by
  refine ⟨?_, ?_, ?_, ?_⟩
  · by_contra hws
    have hws' : isJsonWs c = true := by revert hws; cases isJsonWs c <;> simp
    rcases (by simpa [isJsonWs] using hws' :
        ((c = ' ' ∨ c = '\t') ∨ c = '\n') ∨ c = '\r')
      with ((h' | h') | h') | h' <;> (subst h'; exact absurd h (by decide))
  · intro h'; subst h'; exact absurd h (by decide)
  · intro h'; subst h'; exact absurd h (by decide)
  · intro h'; subst h'; exact absurd h (by decide)

theorem parseIntTok_intChars (n : Int) (rest : List Char)
    (hb : digitBoundary rest = true) :
    parseIntTok (intChars n ++ rest) = some (n, rest) := by
  unfold intChars
  by_cases hneg : n < 0
  · rw [if_pos hneg]
    show parseIntTok ('-' :: (natChars n.natAbs ++ rest)) = _
    rw [parseIntTok.eq_def]
    dsimp only
    rw [if_pos rfl, parseNatTok_natChars n.natAbs rest hb]
    show some (-((n.natAbs : Int)), rest) = some (n, rest)
    rw [show -((n.natAbs : Int)) = n from by omega]
  · rw [if_neg hneg]
    rcases hn : natChars n.toNat with _ | ⟨d, ds⟩
    · exact absurd hn (natChars_ne_nil n.toNat)
    · have hd : isDigitC d = true := by
        have := natChars_digits n.toNat d
        rw [hn] at this
        exact this (List.mem_cons_self d ds)
      have hdm : d ≠ '-' := (isDigitC_not_special d hd).2.2.2
      rw [List.cons_append, parseIntTok.eq_def]
      dsimp only
      rw [if_neg hdm, ← List.cons_append, ← hn,
        parseNatTok_natChars n.toNat rest hb]
      show some (((n.toNat : Nat) : Int), rest) = some (n, rest)
      rw [show ((n.toNat : Nat) : Int) = n from by omega]

/-! ### Lemmas: the string escape round-trip -/

theorem hexVal_hexDigitChar : ∀ x, x < 16 → hexVal (escChar.hexDigitChar x) = some x := by
  decide

theorem readHex4Val_00 (x y : Nat) (hx : x < 16) (hy : y < 16) :
    readHex4Val '0' '0' (escChar.hexDigitChar x) (escChar.hexDigitChar y) =
      some (x * 16 + y) := by
  unfold readHex4Val
  rw [hexVal_hexDigitChar x hx, hexVal_hexDigitChar y hy]
  show some (((0 * 16 + 0) * 16 + x) * 16 + y) = some (x * 16 + y)
  congr 1
  omega

theorem parseStrBody_cons_lit (f : Nat) (c : Char) (z : List Char)
    (h1 : c ≠ '"') (h2 : c ≠ '\\') :
    parseStrBody (f + 1) (c :: z) =
      (parseStrBody f z).map (fun r => (c :: r.1, r.2)) := by
  show (if c = '"' then some ([], z)
        else if c = '\\' then
          match z with
          | [] => none
          | e :: rest2 =>
            match unescChar e with
            | some d => (parseStrBody f rest2).map (fun r => (d :: r.1, r.2))
            | none =>
              if e = 'u' then
                match rest2 with
                | x1 :: x2 :: x3 :: x4 :: rest3 =>
                  match readHex4Val x1 x2 x3 x4 with
                  | some v =>
                    (parseStrBody f rest3).map (fun r => (Char.ofNat v :: r.1, r.2))
                  | none => none
                | _ => none
              else none
        else (parseStrBody f z).map (fun r => (c :: r.1, r.2))) =
      (parseStrBody f z).map (fun r => (c :: r.1, r.2))
  rw [if_neg h1, if_neg h2]

theorem escChar_length_pos (c : Char) : 1 ≤ (escChar c).length := by
  unfold escChar
  split_ifs <;> simp

theorem escStr_length (s : List Char) : s.length ≤ (escStr s).length := by
  induction s with
  | nil => simp [escStr]
  | cons c t ih =>
    have : escStr (c :: t) = escChar c ++ escStr t := by simp [escStr]
    rw [this, List.length_append, List.length_cons]
    have := escChar_length_pos c
    omega


theorem needV_pos (d : JValue) : 1 ≤ needV d := by
  rcases d with _ | _ | _ | _ | (_ | ⟨x, xs⟩) | (_ | ⟨k, v, kvs⟩) <;> simp [needV]

theorem needA_pos (x : JValue) (xs : JArr) : 1 ≤ needA x xs := by
  rcases xs with _ | ⟨y, ys⟩ <;> simp [needA]

theorem needO_pos (v : JValue) (kvs : JObj) : 1 ≤ needO v kvs := by
  rcases kvs with _ | ⟨k2, v2, tl⟩ <;> simp [needO]

/-! ### Parser head lemmas -/

theorem skipWs_cons_not (c : Char) (t : List Char) (h : isJsonWs c = false) :
    skipWs (c :: t) = c :: t := by
  unfold skipWs
  rw [List.dropWhile_cons_of_neg (by rw [h]; exact Bool.false_ne_true)]

theorem skipWs_cons_ws (c : Char) (t : List Char) (h : isJsonWs c = true) :
    skipWs (c :: t) = skipWs t := by
  unfold skipWs
  rw [List.dropWhile_cons_of_pos h]

theorem headIs_cons_false (x c : Char) (t : List Char) (h : c ≠ x) :
    headIs x (c :: t) = false := by
  simp [headIs, h]

theorem parseVal_ws (f : Nat) (c : Char) (z : List Char) (h : isJsonWs c = true) :
    parseVal f (c :: z) = parseVal f z := by
  cases f with
  | zero => rfl
  | succ f' =>
    unfold parseVal
    rw [skipWs_cons_ws c z h]

theorem parseArrItems_ws (f : Nat) (c : Char) (z : List Char) (h : isJsonWs c = true) :
    parseArrItems f (c :: z) = parseArrItems f z := by
  cases f with
  | zero => rfl
  | succ f' =>
    unfold parseArrItems
    rw [parseVal_ws f' c z h]

theorem parseObjItems_ws (f : Nat) (c : Char) (z : List Char) (h : isJsonWs c = true) :
    parseObjItems f (c :: z) = parseObjItems f z := by
  cases f with
  | zero => rfl
  | succ f' =>
    unfold parseObjItems
    rw [skipWs_cons_ws c z h]

/-- The first character of any compact dump: not whitespace and not a
closing bracket, so the array-element dispatch always reaches the element. -/
theorem dumpV_head (d : JValue) :
    ∃ c t, dumpV d = c :: t ∧ isJsonWs c = false ∧ c ≠ ']' := by
  rcases d with _ | b | n | s | (_ | ⟨x, xs⟩) | (_ | ⟨k, v, kvs⟩)
  · exact ⟨'n', _, rfl, by decide, by decide⟩
  · rcases b with _ | _
    · exact ⟨'f', _, rfl, by decide, by decide⟩
    · exact ⟨'t', _, rfl, by decide, by decide⟩
  · show ∃ c t, intChars n = c :: t ∧ isJsonWs c = false ∧ c ≠ ']'
    unfold intChars
    by_cases hneg : n < 0
    · rw [if_pos hneg]
      exact ⟨'-', _, rfl, by decide, by decide⟩
    · rw [if_neg hneg]
      rcases hn : natChars n.toNat with _ | ⟨d0, ds⟩
      · exact absurd hn (natChars_ne_nil n.toNat)
      · have hd0 : isDigitC d0 = true := by
          have := natChars_digits n.toNat d0
          rw [hn] at this
          exact this (List.mem_cons_self d0 ds)
        obtain ⟨hws, hbr, -, -⟩ := isDigitC_not_special d0 hd0
        exact ⟨d0, ds, rfl, hws, hbr⟩
  · exact ⟨'"', _, rfl, by decide, by decide⟩
  · exact ⟨'[', _, rfl, by decide, by decide⟩
  · exact ⟨'[', _, rfl, by decide, by decide⟩
  · exact ⟨'{', _, rfl, by decide, by decide⟩
  · exact ⟨'{', _, rfl, by decide, by decide⟩

theorem dumpArr_boundary (xs : JArr) (rest : List Char) :
    digitBoundary (dumpArr xs ++ ']' :: rest) = true := by
  rcases xs with _ | ⟨y, ys⟩ <;> rfl

theorem dumpObj_boundary (kvs : JObj) (rest : List Char) :
    digitBoundary (dumpObj kvs ++ '}' :: rest) = true := by
  rcases kvs with _ | ⟨k2, v2, tl⟩ <;> rfl

theorem parseStrBody_escStr (s : List Char) : ∀ (f : Nat) (rest : List Char),
    s.length < f → parseStrBody f (escStr s ++ '"' :: rest) = some (s, rest) := by
  induction s with
  | nil =>
    intro f rest hf
    rcases f with _ | f'
    · omega
    · rfl
  | cons c t ih =>
    intro f rest hf
    rcases f with _ | f'
    · omega
    have hft : t.length < f' := by
      rw [List.length_cons] at hf
      omega
    have hesc : escStr (c :: t) = escChar c ++ escStr t := by
      simp [escStr]
    rw [hesc, List.append_assoc]
    by_cases h1 : c = '"'
    · subst h1
      have step : parseStrBody (f' + 1) ('\\' :: '"' :: (escStr t ++ '"' :: rest)) =
          (parseStrBody f' (escStr t ++ '"' :: rest)).map
            (fun r => ('"' :: r.1, r.2)) := rfl
      rw [show escChar '"' = ['\\', '"'] from rfl]
      rw [show (['\\', '"'] : List Char) ++ (escStr t ++ '"' :: rest) =
        '\\' :: '"' :: (escStr t ++ '"' :: rest) from rfl]
      rw [step, ih f' rest hft]
      rfl
    · by_cases h2 : c = '\\'
      · subst h2
        rw [show escChar '\\' = ['\\', '\\'] from rfl]
        rw [show (['\\', '\\'] : List Char) ++ (escStr t ++ '"' :: rest) =
          '\\' :: '\\' :: (escStr t ++ '"' :: rest) from rfl]
        rw [show parseStrBody (f' + 1) ('\\' :: '\\' :: (escStr t ++ '"' :: rest)) =
          (parseStrBody f' (escStr t ++ '"' :: rest)).map
            (fun r => ('\\' :: r.1, r.2)) from rfl]
        rw [ih f' rest hft]
        rfl
      · by_cases h3 : c = '\n'
        · subst h3
          rw [show escChar '\n' = ['\\', 'n'] from rfl]
          rw [show (['\\', 'n'] : List Char) ++ (escStr t ++ '"' :: rest) =
            '\\' :: 'n' :: (escStr t ++ '"' :: rest) from rfl]
          rw [show parseStrBody (f' + 1) ('\\' :: 'n' :: (escStr t ++ '"' :: rest)) =
            (parseStrBody f' (escStr t ++ '"' :: rest)).map
              (fun r => ('\n' :: r.1, r.2)) from rfl]
          rw [ih f' rest hft]
          rfl
        · by_cases h4 : c = '\r'
          · subst h4
            rw [show escChar '\r' = ['\\', 'r'] from rfl]
            rw [show (['\\', 'r'] : List Char) ++ (escStr t ++ '"' :: rest) =
              '\\' :: 'r' :: (escStr t ++ '"' :: rest) from rfl]
            rw [show parseStrBody (f' + 1) ('\\' :: 'r' :: (escStr t ++ '"' :: rest)) =
              (parseStrBody f' (escStr t ++ '"' :: rest)).map
                (fun r => ('\r' :: r.1, r.2)) from rfl]
            rw [ih f' rest hft]
            rfl
          · by_cases h5 : c = '\t'
            · subst h5
              rw [show escChar '\t' = ['\\', 't'] from rfl]
              rw [show (['\\', 't'] : List Char) ++ (escStr t ++ '"' :: rest) =
                '\\' :: 't' :: (escStr t ++ '"' :: rest) from rfl]
              rw [show parseStrBody (f' + 1) ('\\' :: 't' :: (escStr t ++ '"' :: rest)) =
                (parseStrBody f' (escStr t ++ '"' :: rest)).map
                  (fun r => ('\t' :: r.1, r.2)) from rfl]
              rw [ih f' rest hft]
              rfl
            · by_cases h6 : c = '\x08'
              · subst h6
                rw [show escChar '\x08' = ['\\', 'b'] from rfl]
                rw [show (['\\', 'b'] : List Char) ++ (escStr t ++ '"' :: rest) =
                  '\\' :: 'b' :: (escStr t ++ '"' :: rest) from rfl]
                rw [show parseStrBody (f' + 1) ('\\' :: 'b' :: (escStr t ++ '"' :: rest)) =
                  (parseStrBody f' (escStr t ++ '"' :: rest)).map
                    (fun r => ('\x08' :: r.1, r.2)) from rfl]
                rw [ih f' rest hft]
                rfl
              · by_cases h7 : c = '\x0c'
                · subst h7
                  rw [show escChar '\x0c' = ['\\', 'f'] from rfl]
                  rw [show (['\\', 'f'] : List Char) ++ (escStr t ++ '"' :: rest) =
                    '\\' :: 'f' :: (escStr t ++ '"' :: rest) from rfl]
                  rw [show parseStrBody (f' + 1) ('\\' :: 'f' :: (escStr t ++ '"' :: rest)) =
                    (parseStrBody f' (escStr t ++ '"' :: rest)).map
                      (fun r => ('\x0c' :: r.1, r.2)) from rfl]
                  rw [ih f' rest hft]
                  rfl
                · by_cases h8 : c.toNat < 0x20
                  · have hu : escChar c =
                        ['\\', 'u', '0', '0', escChar.hexDigitChar (c.toNat / 16),
                          escChar.hexDigitChar (c.toNat % 16)] := by
                      unfold escChar
                      rw [if_neg h1, if_neg h2, if_neg h3, if_neg h4, if_neg h5,
                        if_neg h6, if_neg h7, if_pos h8]
                    rw [hu]
                    simp only [List.cons_append, List.nil_append]
                    have step : parseStrBody (f' + 1)
                        ('\\' :: 'u' :: '0' :: '0' :: escChar.hexDigitChar (c.toNat / 16) ::
                          escChar.hexDigitChar (c.toNat % 16) :: (escStr t ++ '"' :: rest)) =
                        (match readHex4Val '0' '0' (escChar.hexDigitChar (c.toNat / 16))
                            (escChar.hexDigitChar (c.toNat % 16)) with
                         | some v => (parseStrBody f' (escStr t ++ '"' :: rest)).map
                             (fun r => (Char.ofNat v :: r.1, r.2))
                         | none => none) := rfl
                    rw [step, readHex4Val_00 (c.toNat / 16) (c.toNat % 16)
                      (by omega) (by omega)]
                    rw [show c.toNat / 16 * 16 + c.toNat % 16 = c.toNat from by omega]
                    rw [ih f' rest hft]
                    simp only [Option.map_some]
                    rw [Char.ofNat_toNat]
                    rfl
                  · have hlit : escChar c = [c] := by
                      unfold escChar
                      rw [if_neg h1, if_neg h2, if_neg h3, if_neg h4, if_neg h5,
                        if_neg h6, if_neg h7, if_neg h8]
                    rw [hlit]
                    simp only [List.cons_append, List.nil_append]
                    rw [parseStrBody_cons_lit f' c _ h1 h2, ih f' rest hft]
                    rfl

/-! ### Dispatch lemmas: how parseVal reacts to the first input character -/

theorem parseVal_cons_num (f : Nat) (c : Char) (r : List Char)
    (hws : isJsonWs c = false) (hnum : (decide (c = '-') || isDigitC c) = true) :
    parseVal (f + 1) (c :: r) =
      (parseIntTok (c :: r)).map (fun q => (JValue.jint q.1, q.2)) := by
  rw [parseVal, skipWs_cons_not c r hws]
  dsimp only
  rw [if_pos hnum]

theorem parseVal_cons_quote (f : Nat) (r : List Char) :
    parseVal (f + 1) ('"' :: r) =
      (parseStrBody (r.length + 1) r).map (fun q => (JValue.jstr q.1, q.2)) := rfl

theorem parseVal_cons_lbrack (f : Nat) (r : List Char) :
    parseVal (f + 1) ('[' :: r) =
      if headIs ']' (skipWs r) then some (JValue.jarr .anil, (skipWs r).tail)
      else (parseArrItems f r).map (fun q => (JValue.jarr q.1, q.2)) := rfl

theorem parseVal_cons_lbrace (f : Nat) (r : List Char) :
    parseVal (f + 1) ('{' :: r) =
      if headIs '}' (skipWs r) then some (JValue.jobj .onil, (skipWs r).tail)
      else (parseObjItems f r).map (fun q => (JValue.jobj q.1, q.2)) := rfl

theorem if_headIs_pos {α : Type} (x : Char) (t : List Char) (a b : α) :
    (if headIs x (x :: t) then a else b) = a := by
  simp [headIs]

theorem if_headIs_neg {α : Type} (x c : Char) (t : List Char) (h : c ≠ x) (a b : α) :
    (if headIs x (c :: t) then a else b) = b := by
  simp [headIs, h]

/-- The first character of a dumped integer is the minus sign or a digit; in
particular it is not whitespace. -/
theorem intChars_head (n : Int) :
    ∃ c t, intChars n = c :: t ∧ isJsonWs c = false ∧
      (decide (c = '-') || isDigitC c) = true := by
  unfold intChars
  by_cases hneg : n < 0
  · rw [if_pos hneg]
    exact ⟨'-', _, rfl, by decide, by decide⟩
  · rw [if_neg hneg]
    rcases hn : natChars n.toNat with _ | ⟨d0, ds⟩
    · exact absurd hn (natChars_ne_nil n.toNat)
    · have hd0 : isDigitC d0 = true := by
        have := natChars_digits n.toNat d0
        rw [hn] at this
        exact this (List.mem_cons_self d0 ds)
      obtain ⟨hws, -, -, -⟩ := isDigitC_not_special d0 hd0
      exact ⟨d0, ds, rfl, hws, by rw [hd0, Bool.or_true]⟩

/-- parseStrBody at the fuel jloads actually supplies (one more than the
remaining input length) succeeds on any escaped string body. -/
theorem parseStrBody_escStr_auto (s rest : List Char) :
    parseStrBody ((escStr s ++ '"' :: rest).length + 1) (escStr s ++ '"' :: rest) =
      some (s, rest) := by
  apply parseStrBody_escStr
  simp only [List.length_append, List.length_cons]
  have := escStr_length s
  omega

/-- Fuel induction for the dump/parse roundtrip: at any fuel, parseVal
re-reads a compact dump whose nesting the fuel covers, and likewise for the
item parsers on dumped nonempty lists. -/
theorem roundtrip_all (f : Nat) :
    (∀ d rest, needV d ≤ f → digitBoundary rest = true →
      parseVal f (dumpV d ++ rest) = some (d, rest)) ∧
    (∀ x xs rest, needA x xs ≤ f →
      parseArrItems f (dumpV x ++ (dumpArr xs ++ ']' :: rest)) =
        some (JArr.acons x xs, rest)) ∧
    (∀ k v kvs rest, needO v kvs ≤ f →
      parseObjItems f (dumpMember k v ++ (dumpObj kvs ++ '}' :: rest)) =
        some (JObj.ocons k v kvs, rest)) := by
  induction f with
  | zero =>
    refine ⟨?_, ?_, ?_⟩
    · intro d rest hf _
      exact absurd (le_trans (needV_pos d) hf) (by omega)
    · intro x xs rest hf
      exact absurd (le_trans (needA_pos x xs) hf) (by omega)
    · intro k v kvs rest hf
      exact absurd (le_trans (needO_pos v kvs) hf) (by omega)
  | succ f' ih =>
    obtain ⟨ihV, ihA, ihO⟩ := ih
    refine ⟨?_, ?_, ?_⟩
    · intro d rest hf hb
      rcases d with _ | b | n | s | (_ | ⟨x, xs⟩) | (_ | ⟨k, v, kvs⟩)
      · rfl
      · rcases b with _ | _ <;> rfl
      · obtain ⟨c0, t0, hn, hws, hnum⟩ := intChars_head n
        show parseVal (f' + 1) (intChars n ++ rest) = some (JValue.jint n, rest)
        rw [hn, List.cons_append, parseVal_cons_num f' c0 (t0 ++ rest) hws hnum,
          ← List.cons_append, ← hn, parseIntTok_intChars n rest hb]
        rfl
      · show parseVal (f' + 1) ('"' :: ((escStr s ++ ['"']) ++ rest)) =
          some (JValue.jstr s, rest)
        rw [parseVal_cons_quote]
        rw [show (escStr s ++ ['"']) ++ rest = escStr s ++ '"' :: rest by simp]
        rw [parseStrBody_escStr_auto]
        rfl
      · rfl
      · show parseVal (f' + 1) ('[' :: (((dumpV x ++ dumpArr xs) ++ [']']) ++ rest)) =
          some (JValue.jarr (JArr.acons x xs), rest)
        rw [parseVal_cons_lbrack]
        rw [show ((dumpV x ++ dumpArr xs) ++ [']']) ++ rest
            = dumpV x ++ (dumpArr xs ++ ']' :: rest) by simp]
        obtain ⟨c0, t0, hx, hws, hbr⟩ := dumpV_head x
        rw [hx, List.cons_append, skipWs_cons_not c0 _ hws, if_headIs_neg ']' c0 _ hbr,
          ← List.cons_append, ← hx]
        rw [ihA x xs rest (by simp only [needV] at hf; omega)]
        rfl
      · rfl
      · show parseVal (f' + 1)
            ('{' :: (((dumpMember k v ++ dumpObj kvs) ++ ['}']) ++ rest)) =
          some (JValue.jobj (JObj.ocons k v kvs), rest)
        rw [parseVal_cons_lbrace]
        rw [show ((dumpMember k v ++ dumpObj kvs) ++ ['}']) ++ rest
            = dumpMember k v ++ (dumpObj kvs ++ '}' :: rest) by simp]
        rw [show dumpMember k v ++ (dumpObj kvs ++ '}' :: rest)
            = '"' :: ((escStr k ++ '"' :: ':' :: ' ' :: dumpV v) ++
                (dumpObj kvs ++ '}' :: rest)) by
          simp [dumpMember]]
        rw [skipWs_cons_not '"' _ (by decide), if_headIs_neg '}' '"' _ (by decide)]
        rw [show ('"' : Char) :: ((escStr k ++ '"' :: ':' :: ' ' :: dumpV v) ++
              (dumpObj kvs ++ '}' :: rest))
            = dumpMember k v ++ (dumpObj kvs ++ '}' :: rest) by simp [dumpMember]]
        rw [ihO k v kvs rest (by simp only [needV] at hf; omega)]
        rfl
    · intro x xs rest hf
      rcases xs with _ | ⟨y, ys⟩
      · rw [show dumpV x ++ (dumpArr .anil ++ ']' :: rest) = dumpV x ++ ']' :: rest
            from rfl]
        rw [parseArrItems]
        rw [ihV x (']' :: rest) (by simp only [needA] at hf; omega) rfl]
        rfl
      · rw [show dumpV x ++ (dumpArr (.acons y ys) ++ ']' :: rest)
            = dumpV x ++ (',' :: ' ' :: ((dumpV y ++ dumpArr ys) ++ ']' :: rest))
            from rfl]
        rw [parseArrItems]
        rw [ihV x (',' :: ' ' :: ((dumpV y ++ dumpArr ys) ++ ']' :: rest))
          (by simp only [needA] at hf; omega) rfl]
        show (parseArrItems f' (' ' :: ((dumpV y ++ dumpArr ys) ++ ']' :: rest))).map
            (fun t => (JArr.acons x t.1, t.2)) =
          some (JArr.acons x (JArr.acons y ys), rest)
        rw [parseArrItems_ws f' ' ' _ (by decide)]
        rw [List.append_assoc]
        rw [ihA y ys rest (by simp only [needA] at hf; omega)]
        rfl
    · intro k v kvs rest hf
      rcases kvs with _ | ⟨k2, v2, tl⟩
      · rw [show dumpMember k v ++ (dumpObj .onil ++ '}' :: rest)
            = '"' :: (escStr k ++ '"' :: (':' :: ' ' :: (dumpV v ++ '}' :: rest))) by
          simp [dumpMember, dumpObj]]
        rw [parseObjItems, skipWs_cons_not '"' _ (by decide), if_headIs_pos,
          List.tail_cons]
        rw [parseStrBody_escStr_auto]
        simp only [Option.some_bind]
        rw [skipWs_cons_not ':' _ (by decide), if_headIs_pos, List.tail_cons]
        rw [parseVal_ws f' ' ' _ (by decide)]
        rw [ihV v ('}' :: rest) (by simp only [needO] at hf; omega) rfl]
        simp only [Option.some_bind]
        rw [skipWs_cons_not '}' _ (by decide), if_headIs_neg ',' '}' _ (by decide),
          if_headIs_pos, List.tail_cons]
      · rw [show dumpMember k v ++ (dumpObj (.ocons k2 v2 tl) ++ '}' :: rest)
            = '"' :: (escStr k ++ '"' :: (':' :: ' ' :: (dumpV v ++ ',' :: ' ' ::
                (dumpMember k2 v2 ++ (dumpObj tl ++ '}' :: rest))))) by
          simp [dumpMember, dumpObj]]
        rw [parseObjItems, skipWs_cons_not '"' _ (by decide), if_headIs_pos,
          List.tail_cons]
        rw [parseStrBody_escStr_auto]
        simp only [Option.some_bind]
        rw [skipWs_cons_not ':' _ (by decide), if_headIs_pos, List.tail_cons]
        rw [parseVal_ws f' ' ' _ (by decide)]
        rw [ihV v (',' :: ' ' :: (dumpMember k2 v2 ++ (dumpObj tl ++ '}' :: rest)))
          (by simp only [needO] at hf; omega) rfl]
        simp only [Option.some_bind]
        rw [skipWs_cons_not ',' _ (by decide), if_headIs_pos, List.tail_cons]
        rw [parseObjItems_ws f' ' ' _ (by decide)]
        rw [ihO k2 v2 tl rest (by simp only [needO] at hf; omega)]
        rfl

/-- The parser re-reads any compact dump, leaving the trailing input intact. -/
theorem roundtripV (d : JValue) (f : Nat) (rest : List Char)
    (hf : needV d ≤ f) (hb : digitBoundary rest = true) :
    parseVal f (dumpV d ++ rest) = some (d, rest) :=
  (roundtrip_all f).1 d rest hf hb

theorem sizeOfV_pos (d : JValue) : 1 ≤ sizeOf d := by
  cases d <;> simp <;> omega

theorem sizeOfA_pos (xs : JArr) : 1 ≤ sizeOf xs := by
  cases xs <;> simp <;> omega

/-- The fuel measure never exceeds the dumped length (so the fuel jloads
supplies, one more than the input length, always suffices). -/
theorem need_le_all (n : Nat) :
    (∀ d : JValue, sizeOf d ≤ n → needV d ≤ (dumpV d).length) ∧
    (∀ (x : JValue) (xs : JArr), sizeOf x + sizeOf xs ≤ n →
      needA x xs ≤ 1 + (dumpV x).length + (dumpArr xs).length) ∧
    (∀ (v : JValue) (kvs : JObj), sizeOf v + sizeOf kvs ≤ n →
      needO v kvs ≤ 1 + (dumpV v).length + (dumpObj kvs).length) := by
  induction n with
  | zero =>
    refine ⟨?_, ?_, ?_⟩
    · intro d hd
      exact absurd (le_trans (sizeOfV_pos d) hd) (by omega)
    · intro x xs h
      have := sizeOfV_pos x
      omega
    · intro v kvs h
      have := sizeOfV_pos v
      omega
  | succ m ih =>
    refine ⟨?_, ?_, ?_⟩
    · intro d hd
      rcases d with _ | b | n' | s | (_ | ⟨x, xs⟩) | (_ | ⟨k, v, kvs⟩)
      · simp [needV, dumpV]
      · rcases b with _ | _ <;> simp [needV, dumpV]
      · obtain ⟨c0, t0, hn, -, -⟩ := intChars_head n'
        show needV (JValue.jint n') ≤ (intChars n').length
        rw [hn]
        simp [needV]
      · simp [needV, dumpV]
      · simp [needV, needA, dumpV]
      · have hsz : sizeOf x + sizeOf xs ≤ m := by
          simp only [JValue.jarr.sizeOf_spec, JArr.acons.sizeOf_spec] at hd
          omega
        have hA := ih.2.1 x xs hsz
        simp only [needV, dumpV, List.length_cons, List.length_append]
        omega
      · simp [needV, needO, dumpV]
      · have hsz : sizeOf v + sizeOf kvs ≤ m := by
          simp only [JValue.jobj.sizeOf_spec, JObj.ocons.sizeOf_spec] at hd
          omega
        have hO := ih.2.2 v kvs hsz
        simp only [needV, dumpV, List.length_cons, List.length_append]
        omega
    · intro x xs h
      rcases xs with _ | ⟨y, ys⟩
      · have hV := ih.1 x (by
          simp only [JArr.anil.sizeOf_spec] at h
          omega)
        simp only [needA, dumpArr, List.length_nil]
        omega
      · have hx1 := sizeOfV_pos x
        have hV := ih.1 x (by
          simp only [JArr.acons.sizeOf_spec] at h
          have := sizeOfV_pos y
          omega)
        have hA := ih.2.1 y ys (by
          simp only [JArr.acons.sizeOf_spec] at h
          omega)
        simp only [needA, dumpArr, List.length_cons, List.length_append]
        omega
    · intro v kvs h
      rcases kvs with _ | ⟨k2, v2, tl⟩
      · have hV := ih.1 v (by
          simp only [JObj.onil.sizeOf_spec] at h
          omega)
        simp only [needO, dumpObj, List.length_nil]
        omega
      · have hv1 := sizeOfV_pos v
        have hV := ih.1 v (by
          simp only [JObj.ocons.sizeOf_spec] at h
          have := sizeOfV_pos v2
          omega)
        have hO := ih.2.2 v2 tl (by
          simp only [JObj.ocons.sizeOf_spec] at h
          omega)
        simp only [needO, dumpObj, List.length_cons, List.length_append]
        omega

theorem needV_le_dump (d : JValue) : needV d ≤ (dumpV d).length :=
  (need_le_all (sizeOf d)).1 d (le_refl _)

/-- jloads parses back any compact dump exactly. -/
theorem jloads_dumpV (d : JValue) : jloads (dumpV d) = some d := by
  have h := roundtripV d ((dumpV d).length + 1) []
    (le_trans (needV_le_dump d) (by omega)) rfl
  rw [List.append_nil] at h
  unfold jloads
  rw [h]
  rfl

theorem dumpV_jobj_head (kvs : JObj) :
    (dumpV (JValue.jobj kvs)).head? = some '{' := by
  rcases kvs with _ | ⟨k, v, tl⟩ <;> rfl

theorem dumpV_jobj_getLast (kvs : JObj) :
    (dumpV (JValue.jobj kvs)).getLast? = some '}' := by
  rcases kvs with _ | ⟨k, v, tl⟩
  · rfl
  · rw [show dumpV (JValue.jobj (JObj.ocons k v tl))
        = ('{' :: (dumpMember k v ++ dumpObj tl)) ++ ['}'] by simp [dumpV, dumpMember]]
    exact List.getLast?_concat _

theorem dumpV_jobj_ne_nil (kvs : JObj) : (dumpV (JValue.jobj kvs)).isEmpty = false := by
  rcases kvs with _ | ⟨k, v, tl⟩ <;> rfl

/-- On a dict input with compact=true, when json.dumps produces only printable
ASCII with no space/tab runs, the sanitization pipeline is the identity: the
strip regex keeps every character, there are no CR/LF to normalize or
collapse, the space-collapse finds no runs, and the ends are braces. -/
theorem sanitizeContent_pdict_compact (kvs : JObj)
    (hascii : ∀ c ∈ dumpV (JValue.jobj kvs), 0x20 ≤ c.toNat ∧ c.toNat ≤ 0x7E)
    (hrun : noRun isSpTab (dumpV (JValue.jobj kvs))) :
    sanitizeContent (.pdict kvs) true = .ok (dumpV (.jobj kvs)) := by
  have hnotab : '\t' ∉ dumpV (JValue.jobj kvs) :=
    fun hm => absurd (hascii '\t' hm).1 (by decide)
  have hnocr : '\r' ∉ dumpV (JValue.jobj kvs) :=
    fun hm => absurd (hascii '\r' hm).1 (by decide)
  have hnonl : '\n' ∉ dumpV (JValue.jobj kvs) :=
    fun hm => absurd (hascii '\n' hm).1 (by decide)
  have hfil : (dumpV (JValue.jobj kvs)).filter keepChar = dumpV (JValue.jobj kvs) :=
    List.filter_eq_self.mpr (fun c hc => by
      obtain ⟨ha, hb⟩ := hascii c hc
      simp only [keepChar, Bool.or_eq_true, Bool.and_eq_true, decide_eq_true_eq]
      exact Or.inl (Or.inl ⟨by omega, by omega⟩))
  have hh1 : ∀ c, (dumpV (JValue.jobj kvs)).head? = some c → isPySpace c = false := by
    intro c hc
    rw [dumpV_jobj_head] at hc
    cases hc
    rfl
  have hh2 : ∀ c, (dumpV (JValue.jobj kvs)).getLast? = some c → isPySpace c = false := by
    intro c hc
    rw [dumpV_jobj_getLast] at hc
    cases hc
    rfl
  show (match (Except.ok (dumpV (JValue.jobj kvs)) : Except Err (List Char)) with
    | .error e => .error e
    | .ok s0 =>
      let s1 := s0.filter keepChar
      let s2 := replCr (replCrlf s1)
      let s3 := if true then pyStrip (collapseSp (collapseNl s2)) else s2
      if (pyStrip s3).isEmpty then .error .valueError else .ok s3) =
    Except.ok (dumpV (JValue.jobj kvs))
  simp only [if_true]
  have hcnl : collapseNl (dumpV (JValue.jobj kvs)) = dumpV (JValue.jobj kvs) :=
    collapseNlAux_eq_self _ hnonl false
  have hcsp : collapseSp (dumpV (JValue.jobj kvs)) = dumpV (JValue.jobj kvs) :=
    (collapseSpAux_eq_self _ hnotab hrun).1
  rw [hfil, replCrlf_eq_self _ hnocr, replCr_eq_self _ hnocr, hcnl, hcsp,
    pyStrip_eq_self _ hh1 hh2, pyStrip_eq_self _ hh1 hh2, dumpV_jobj_ne_nil]
  rfl

/-- C3 (counterexample): the dict \x7b"a": "x  y"\x7d written with compact=true
does parse back as JSON, but the compact pipeline collapsed the double space
inside the string value to one space, so the parsed structure differs from the
original dict. -/
theorem c3_counterexample :
    (createFile asciiEnc fsEmpty ["out.json"]
        (.pdict (.ocons (cl "a") (.jstr (cl "x  y")) .onil)) true true).1
      = .ok ["out.json"] ∧
    (fileTextAt (createFile asciiEnc fsEmpty ["out.json"]
        (.pdict (.ocons (cl "a") (.jstr (cl "x  y")) .onil)) true true).2
        ["out.json"]).bind jloads
      = some (.jobj (.ocons (cl "a") (.jstr (cl "x y")) .onil)) ∧
    JValue.jobj (JObj.ocons (cl "a") (.jstr (cl "x y")) .onil)
      ≠ JValue.jobj (JObj.ocons (cl "a") (.jstr (cl "x  y")) .onil) := by
  refine ⟨by decide, by decide, by decide⟩

/-- C3 (amended): on a fresh path with no file-ancestor conflict, mkdir not
blocked by a non-writable existing ancestor on the parent chain, and a
writable parent, create_file with a dict and compact=true writes exactly
json.dumps of the dict and parsing that text back yields the original dict —
provided the dump is printable ASCII with no space/tab runs (otherwise the
compact pipeline deletes or collapses characters even inside string values,
as the counterexample shows). -/
theorem c3_compact_json_roundtrip (fs : FS) (p : Path) (kvs : JObj)
    (h1 : entryAt fs p = none)
    (h3 : ∀ q ∈ initSegs (parentOf p), isFileAt fs q = false)
    (h5 : mkdirBlocked fs (parentOf p) = false)
    (h4 : ∀ r w, entryAt fs (parentOf p) = some (.dir r w) → w = true)
    (hascii : ∀ c ∈ dumpV (JValue.jobj kvs), 0x20 ≤ c.toNat ∧ c.toNat ≤ 0x7E)
    (hrun : noRun isSpTab (dumpV (JValue.jobj kvs))) :
    (createFile asciiEnc fs p (.pdict kvs) true true).1 = .ok p ∧
    fileTextAt (createFile asciiEnc fs p (.pdict kvs) true true).2 p =
      some (dumpV (.jobj kvs)) ∧
    jloads (dumpV (.jobj kvs)) = some (.jobj kvs) := by
  have hsan := sanitizeContent_pdict_compact kvs hascii hrun
  obtain ⟨hok, hfile⟩ := createFile_fresh_success asciiEnc fs p (.pdict kvs) true true
    (dumpV (.jobj kvs)) h1 hsan h3 h5 h4
  refine ⟨hok, ?_, jloads_dumpV _⟩
  have hp : p ≠ [] := entryAt_none_ne_nil fs p h1
  unfold fileTextAt
  rw [entryAt_ne_root _ _ hp, hfile]
  exact utf8Decode_ascii _ (fun c hc => by have := (hascii c hc).2; omega)

/-- C3 (witness): the amended roundtrip at the dict \x7b"k": 7\x7d on a fresh
path of the empty filesystem; every hypothesis holds by computation. -/
theorem c3_compact_json_roundtrip_witness :
    (createFile asciiEnc fsEmpty ["k.json"]
        (.pdict (JObj.ocons (cl "k") (.jint 7) .onil)) true true).1 = .ok ["k.json"] ∧
    fileTextAt (createFile asciiEnc fsEmpty ["k.json"]
        (.pdict (JObj.ocons (cl "k") (.jint 7) .onil)) true true).2 ["k.json"] =
      some (dumpV (.jobj (JObj.ocons (cl "k") (.jint 7) .onil))) ∧
    jloads (dumpV (.jobj (JObj.ocons (cl "k") (.jint 7) .onil))) =
      some (.jobj (JObj.ocons (cl "k") (.jint 7) .onil)) :=
  c3_compact_json_roundtrip fsEmpty ["k.json"] (JObj.ocons (cl "k") (.jint 7) .onil)
    (by decide) (by decide) (by decide) (by decide) (by decide) (by decide)

end Filerix
